import Mathlib

/-!
Verification of the cost calculation engine of the llm-pricing-simulator
repository.  The definitions below are a shallow embedding of
`src/calculator.py` and `src/models.py`: Python floats are modelled as
rationals (`ℚ`), Python ints as `ℤ`, Python dicts as insertion-ordered
association lists, raised `ValueError`s as the `Except` monad, and the
`print` warning side effect as an explicit list of warning strings.
-/

set_option maxRecDepth 4000

namespace LLMPricing

/-! ### Association-list model of Python dicts -/

/-- First-match lookup in an association list, the model of `d[k]` /
`d.get(k)` on a Python dict (keys are unique in a dict, so first match
is the match). -/
def alookup {β : Type} : List (String × β) → String → Option β
  | [], _ => none
  | (a, b) :: t, k => if a = k then some b else alookup t k

/-- Python dict assignment `d[k] = v`: replace the first binding of `k`,
or append a new binding at the end (dicts preserve insertion order). -/
def dictSet : List (String × ℚ) → String → ℚ → List (String × ℚ)
  | [], k, v => [(k, v)]
  | (a, b) :: t, k, v => if a = k then (k, v) :: t else (a, b) :: dictSet t k v

/-- Python idiom `d[k] = d.get(k, 0.0) + v`, the accumulation step of the calculator. -/
def dictAdd (d : List (String × ℚ)) (k : String) (v : ℚ) : List (String × ℚ) :=
  dictSet d k ((alookup d k).getD 0 + v)

/-- Sum of the values of an association list. -/
def valsSum (d : List (String × ℚ)) : ℚ := (d.map Prod.snd).sum

/-! ### Data model (`src/models.py`) -/

/-- Model of `ModelPrice`: price data for one model.  `updated_at` is a datetime,
modelled as an integer timestamp (it is only compared with `max` and
rendered). -/
structure ModelPrice where
  id : String
  vendor : String
  name : String
  input_per_million : ℚ
  output_per_million : ℚ
  input_cached_per_million : Option ℚ
  updated_at : Int
deriving DecidableEq

/-- Model of `TokenStrategy`: how to calculate input tokens for a flow step. -/
inductive TokenStrategy where
  | from_prompt
  | fixed
  | from_previous_output
  | percent_of_previous_output
deriving DecidableEq

/-- Model of `FlowStep`: a processing step in the LLM flow. -/
structure FlowStep where
  name : String
  uses_model : String
  input_tokens_strategy : TokenStrategy
  fixed_input_tokens : Option Int := none
  percent_of_previous : Option ℚ := none
  expected_output_tokens : Int
  runs_per_prompt : Int := 1
  use_cached_input : Bool := false
deriving DecidableEq

/-- Model of `Frequency`: how often to run the simulation. -/
inductive Frequency where
  | hourly
  | two_hourly
  | four_hourly
  | daily
  | weekly
  | custom
deriving DecidableEq

/-- Model of `IntentGroup`: a group of intents with specific settings. -/
structure IntentGroup where
  name : String
  intents_count : Int
  variants_per_intent : Int
  frequency : Frequency
  flow_steps : List FlowStep
  custom_runs_per_month : Option Int := none
deriving DecidableEq

/-- Model of `Scenario`: complete simulation scenario. -/
structure Scenario where
  id : String
  name : String
  models : List String
  intent_groups : List IntentGroup
  days_per_month : Int := 30
  price_overrides : List (String × List (String × ℚ)) := []
deriving DecidableEq

/-- One entry of `SimulationResult.by_intent_group`. -/
structure IntentGroupEntry where
  name : String
  cost_usd : ℚ
  calls : Int
  input_tokens : Int
  output_tokens : Int
deriving DecidableEq

/-- Model of `SimulationResult`: results of a simulation run.  `by_model` and
`by_step` entries are (key, cost) pairs; `meta` is a string map. -/
structure SimulationResult where
  total_monthly_cost_usd : ℚ
  by_model : List (String × ℚ)
  by_intent_group : List IntentGroupEntry
  by_step : List (String × ℚ)
  total_calls_per_month : Int
  total_input_tokens_per_month : Int
  total_output_tokens_per_month : Int
  meta : List (String × String)
deriving DecidableEq

/-- The `ValueError`s raised by the calculator. -/
inductive ConfigError where
  | fromPreviousFirstStep
  | percentFirstStep
  | percentUnset
  | customRunsUnset
deriving DecidableEq

/-- A price table: the `prices` dict held by `CostCalculator`. -/
abbrev Prices := List (String × ModelPrice)

/-- The `scenario.price_overrides` mapping. -/
abbrev Overrides := List (String × List (String × ℚ))

def exceptIsOk {ε α : Type} : Except ε α → Bool
  | .ok _ => true
  | .error _ => false

/-! ### Rounding

Python's `round(x, 2)` rounds half to even; on the exact rational model
this is round-half-even of `x * 100` divided by 100. -/

/-- Round a rational to the nearest integer, ties to even. -/
def roundHalfEven (q : ℚ) : Int :=
  let f : Int := ⌊q⌋
  let r : ℚ := q - f
  if r < 1/2 then f
  else if 1/2 < r then f + 1
  else if f % 2 = 0 then f else f + 1

/-- Python's `round(x, 2)` on the rational model. -/
def round2 (q : ℚ) : ℚ := (roundHalfEven (q * 100) : ℚ) / 100

/-! ### The calculator (`src/calculator.py`) -/

/-- Python's `x or d` for `x : Optional[int]`: `None` and `0` are falsy. -/
def orDefault (x : Option Int) (d : Int) : Int :=
  match x with
  | none => d
  | some v => if v = 0 then d else v

/-- Python's `int()` applied to a number: truncation toward zero. -/
def truncTowardZero (q : ℚ) : Int :=
  if 0 ≤ q then ⌊q⌋ else ⌈q⌉

/-- Translation of `CostCalculator._calculate_input_tokens`. -/
def calculate_input_tokens (strategy : TokenStrategy) (fixed_tokens : Option Int)
    (percent : Option ℚ) (previous_output : Option Int) : Except ConfigError Int :=
  match strategy with
  | .from_prompt => .ok (orDefault fixed_tokens 150)
  | .fixed => .ok (orDefault fixed_tokens 0)
  | .from_previous_output =>
    match previous_output with
    | none => .error .fromPreviousFirstStep
    | some p => .ok p
  | .percent_of_previous_output =>
    match previous_output with
    | none => .error .percentFirstStep
    | some p =>
      match percent with
      | none => .error .percentUnset
      | some pct => .ok (truncTowardZero ((p : ℚ) * pct))

/-- The warning printed for a model id absent from the price table. -/
def warnMsg (m : String) : String :=
  "Warning: Model " ++ m ++ " not found in prices, using $0"

/-- Translation of `CostCalculator._calculate_single_call`.  Returns the cost together
with the warnings printed during the call. -/
def calculate_single_call (prices : Prices) (model_id : String)
    (input_tokens output_tokens : Int) (use_cached : Bool)
    (overrides : List (String × ℚ)) : ℚ × List String :=
  match alookup prices model_id with
  | none => (0, [warnMsg model_id])
  | some price =>
    let input_price := (alookup overrides "input_per_million").getD price.input_per_million
    let output_price := (alookup overrides "output_per_million").getD price.output_per_million
    let input_price2 :=
      match use_cached, price.input_cached_per_million with
      | true, some c => (alookup overrides "input_cached_per_million").getD c
      | _, _ => input_price
    (((input_tokens : ℚ) / 1000000) * input_price2
       + ((output_tokens : ℚ) / 1000000) * output_price, [])

/-- Translation of `CostCalculator._get_runs_per_month`. -/
def get_runs_per_month (frequency : Frequency) (days_per_month : Int)
    (custom_runs : Option Int) : Except ConfigError Int :=
  match frequency with
  | .hourly => .ok (24 * days_per_month)
  | .two_hourly => .ok (12 * days_per_month)
  | .four_hourly => .ok (6 * days_per_month)
  | .daily => .ok days_per_month
  | .weekly => .ok (Int.fdiv days_per_month 7)
  | .custom =>
    match custom_runs with
    | none => .error .customRunsUnset
    | some c => .ok c

/-- The models charged for a step: all tested models for the `"current"`
sentinel, otherwise just the named model (`_calculate_flow_step`,
lines 167-175). -/
def modelsForStep (step : FlowStep) (models : List String) : List String :=
  if step.uses_model = "current" then models else [step.uses_model]

/-- The effective prompt count for a step: the base count, multiplied by
`len(models)` when the step names a specific model. -/
def effPrompts (step : FlowStep) (models : List String) (total_prompts : Int) : Int :=
  if step.uses_model = "current" then total_prompts
  else total_prompts * (models.length : Int)

/-- The monthly cost a single model contributes to a step:
`model_cost * total_prompts * runs_per_month * step.runs_per_prompt`. -/
def stepModelCost (prices : Prices) (ov : Overrides) (step : FlowStep)
    (input_tokens : Int) (tp runs : Int) (m : String) : ℚ :=
  (calculate_single_call prices m input_tokens step.expected_output_tokens
      step.use_cached_input ((alookup ov m).getD [])).1
    * (tp : ℚ) * (runs : ℚ) * (step.runs_per_prompt : ℚ)

/-- The warnings a single model contributes to a step. -/
def stepModelWarn (prices : Prices) (ov : Overrides) (step : FlowStep)
    (input_tokens : Int) (m : String) : List String :=
  (calculate_single_call prices m input_tokens step.expected_output_tokens
      step.use_cached_input ((alookup ov m).getD [])).2

/-- Translation of `CostCalculator._calculate_flow_step`.  Returns
(total step cost, per-model cost dict, warnings). -/
def calculate_flow_step (prices : Prices) (step : FlowStep) (models : List String)
    (total_prompts : Int) (runs_per_month : Int) (previous_output : Option Int)
    (price_overrides : Overrides) :
    Except ConfigError (ℚ × List (String × ℚ) × List String) :=
  match calculate_input_tokens step.input_tokens_strategy step.fixed_input_tokens
      step.percent_of_previous previous_output with
  | .error e => .error e
  | .ok input_tokens =>
    let mfs := modelsForStep step models
    let tp := effPrompts step models total_prompts
    .ok (mfs.foldl
      (fun acc m =>
        (acc.1 + stepModelCost prices price_overrides step input_tokens tp runs_per_month m,
         dictSet acc.2.1 m (stepModelCost prices price_overrides step input_tokens tp runs_per_month m),
         acc.2.2 ++ stepModelWarn prices price_overrides step input_tokens m))
      ((0 : ℚ), [], []))

/-- The loop state of `_calculate_intent_group`'s per-step loop. -/
structure StepState where
  total_cost : ℚ
  by_model : List (String × ℚ)
  by_step : List (String × ℚ)
  prev : Option Int
  warnings : List String
deriving DecidableEq

/-- One iteration of the per-step loop of `_calculate_intent_group`. -/
def stepFold (prices : Prices) (models : List String) (tp runs : Int)
    (ov : Overrides) (st : StepState) (step : FlowStep) :
    Except ConfigError StepState :=
  match calculate_flow_step prices step models tp runs st.prev ov with
  | .error e => .error e
  | .ok r =>
    .ok { total_cost := st.total_cost + r.1,
          by_model := r.2.1.foldl (fun d p => dictAdd d p.1 p.2) st.by_model,
          by_step := dictAdd st.by_step step.name r.1,
          prev := some step.expected_output_tokens,
          warnings := st.warnings ++ r.2.2 }

/-- The per-step loop of `_calculate_intent_group`. -/
def stepsGo (prices : Prices) (models : List String) (tp runs : Int)
    (ov : Overrides) : List FlowStep → StepState → Except ConfigError StepState
  | [], st => .ok st
  | s :: rest, st =>
    match stepFold prices models tp runs ov st s with
    | .error e => .error e
    | .ok st2 => stepsGo prices models tp runs ov rest st2

/-- The `details` dict returned by `_calculate_intent_group`. -/
structure GroupDetails where
  calls : Int
  input_tokens : Int
  output_tokens : Int
  by_model : List (String × ℚ)
  by_step : List (String × ℚ)
  warnings : List String
deriving DecidableEq

/-- The body of `_calculate_intent_group` after `runs_per_month` has been
resolved from the frequency. -/
def calculate_intent_group_with_runs (prices : Prices) (group : IntentGroup)
    (models : List String) (ov : Overrides) (runs : Int) :
    Except ConfigError (ℚ × GroupDetails) :=
  let tp := group.intents_count * group.variants_per_intent
  match stepsGo prices models tp runs ov group.flow_steps
      { total_cost := 0,
        by_model := models.foldl (fun dm m => dictSet dm m 0) [],
        by_step := [], prev := none, warnings := [] } with
  | .error e => .error e
  | .ok st =>
    .ok (st.total_cost,
      { calls := (group.flow_steps.map
          (fun s => (models.length : Int) * tp * runs * s.runs_per_prompt)).sum,
        input_tokens := 0, output_tokens := 0,
        by_model := st.by_model, by_step := st.by_step,
        warnings := st.warnings })

/-- Translation of `CostCalculator._calculate_intent_group`. -/
def calculate_intent_group (prices : Prices) (group : IntentGroup)
    (models : List String) (days_per_month : Int) (ov : Overrides) :
    Except ConfigError (ℚ × GroupDetails) :=
  match get_runs_per_month group.frequency days_per_month group.custom_runs_per_month with
  | .error e => .error e
  | .ok runs => calculate_intent_group_with_runs prices group models ov runs

/-- The accumulators of `calculate_scenario` before output formatting. -/
structure RawResult where
  total_cost : ℚ
  total_calls : Int
  total_input_tokens : Int
  total_output_tokens : Int
  by_model : List (String × ℚ)
  by_intent_group : List IntentGroupEntry
  by_step : List (String × ℚ)
  warnings : List String
deriving DecidableEq

/-- One iteration of the per-group loop of `calculate_scenario`. -/
def groupFold (prices : Prices) (ov : Overrides) (models : List String)
    (days_per_month : Int) (acc : RawResult) (g : IntentGroup) :
    Except ConfigError RawResult :=
  match calculate_intent_group prices g models days_per_month ov with
  | .error e => .error e
  | .ok r =>
    .ok { total_cost := acc.total_cost + r.1,
          total_calls := acc.total_calls + r.2.calls,
          total_input_tokens := acc.total_input_tokens + r.2.input_tokens,
          total_output_tokens := acc.total_output_tokens + r.2.output_tokens,
          by_model := r.2.by_model.foldl (fun dm p => dictAdd dm p.1 p.2) acc.by_model,
          by_intent_group := acc.by_intent_group
            ++ [{ name := g.name, cost_usd := r.1, calls := r.2.calls,
                  input_tokens := r.2.input_tokens, output_tokens := r.2.output_tokens }],
          by_step := r.2.by_step.foldl (fun ds p => dictAdd ds p.1 p.2) acc.by_step,
          warnings := acc.warnings ++ r.2.warnings }

/-- The per-group loop of `calculate_scenario`. -/
def groupsGo (prices : Prices) (ov : Overrides) (models : List String)
    (days_per_month : Int) : List IntentGroup → RawResult → Except ConfigError RawResult
  | [], acc => .ok acc
  | g :: rest, acc =>
    match groupFold prices ov models days_per_month acc g with
    | .error e => .error e
    | .ok acc2 => groupsGo prices ov models days_per_month rest acc2

/-- The accumulation phase of `calculate_scenario` (lines 38-71): full
precision, before any rounding. -/
def calculate_scenario_raw (prices : Prices) (s : Scenario) :
    Except ConfigError RawResult :=
  groupsGo prices s.price_overrides s.models s.days_per_month s.intent_groups
    { total_cost := 0, total_calls := 0,
      total_input_tokens := 0, total_output_tokens := 0,
      by_model := s.models.foldl (fun dm m => dictSet dm m 0) [],
      by_intent_group := [], by_step := [], warnings := [] }

/-- Stand-in rendering of `datetime.isoformat` on the integer-timestamp
model of `updated_at`. -/
def isoformat (t : Int) : String := toString t

/-- Translation of `CostCalculator._get_price_metadata`. -/
def get_price_metadata (prices : Prices) : List (String × String) :=
  match prices with
  | [] => [("price_source_updated_at", "unknown")]
  | p :: ps =>
    [("price_source_updated_at",
        isoformat (ps.foldl (fun a q => max a q.2.updated_at) p.2.updated_at)),
     ("models_count", toString (p :: ps).length)]

/-- Translation of `CostCalculator.calculate_scenario`.  Returns the result together
with the warnings printed during the calculation. -/
def calculate_scenario (prices : Prices) (s : Scenario) :
    Except ConfigError (SimulationResult × List String) :=
  match calculate_scenario_raw prices s with
  | .error e => .error e
  | .ok raw =>
    .ok ({ total_monthly_cost_usd := round2 raw.total_cost,
           by_model := raw.by_model.map (fun p => (p.1, round2 p.2)),
           by_intent_group := raw.by_intent_group,
           by_step := raw.by_step.map (fun p => (p.1, round2 p.2)),
           total_calls_per_month := raw.total_calls,
           total_input_tokens_per_month := raw.total_input_tokens,
           total_output_tokens_per_month := raw.total_output_tokens,
           meta := get_price_metadata prices }, raw.warnings)

/-! ### Dictionary lemmas -/

theorem alookup_dictSet (k' : String) (v : ℚ) :
    ∀ (d : List (String × ℚ)) (k : String),
      alookup (dictSet d k' v) k = if k' = k then some v else alookup d k := by
  intro d
  induction d with
  | nil =>
    intro k
    simp [dictSet, alookup]
  | cons p t ih =>
    intro k
    obtain ⟨a, b⟩ := p
    by_cases hak : a = k'
    · rw [show dictSet ((a, b) :: t) k' v = (k', v) :: t by simp [dictSet, hak]]
      by_cases hk : k' = k
      · simp [alookup, hk]
      · have hak2 : ¬ a = k := fun h => hk (hak ▸ h)
        simp [alookup, hk, hak2]
    · rw [show dictSet ((a, b) :: t) k' v = (a, b) :: dictSet t k' v by simp [dictSet, hak]]
      by_cases hk : a = k
      · have hk2 : ¬ k' = k := fun h => hak (by rw [hk, ← h])
        simp [alookup, hk, hk2]
      · simp [alookup, hk, ih]

theorem mem_dictSet (k : String) (v : ℚ) (x : String × ℚ) :
    ∀ d : List (String × ℚ), x ∈ dictSet d k v → x ∈ d ∨ x = (k, v) := by
  intro d
  induction d with
  | nil =>
    intro hx
    simp [dictSet] at hx
    exact Or.inr hx
  | cons p t ih =>
    intro hx
    obtain ⟨a, b⟩ := p
    by_cases hak : a = k
    · rw [show dictSet ((a, b) :: t) k v = (k, v) :: t by simp [dictSet, hak]] at hx
      rcases List.mem_cons.mp hx with h | h
      · exact Or.inr h
      · exact Or.inl (List.mem_cons_of_mem _ h)
    · rw [show dictSet ((a, b) :: t) k v = (a, b) :: dictSet t k v by simp [dictSet, hak]] at hx
      rcases List.mem_cons.mp hx with h | h
      · exact Or.inl (by simp [h])
      · rcases ih h with h' | h'
        · exact Or.inl (List.mem_cons_of_mem _ h')
        · exact Or.inr h'

theorem alookup_mem (k : String) (v : ℚ) :
    ∀ d : List (String × ℚ), alookup d k = some v → (k, v) ∈ d := by
  intro d
  induction d with
  | nil =>
    intro h
    simp [alookup] at h
  | cons p t ih =>
    intro h
    obtain ⟨a, b⟩ := p
    by_cases hak : a = k
    · rw [show alookup ((a, b) :: t) k = some b by simp [alookup, hak]] at h
      have : v = b := Option.some.inj h.symm
      simp [hak, this]
    · rw [show alookup ((a, b) :: t) k = alookup t k by simp [alookup, hak]] at h
      exact List.mem_cons_of_mem _ (ih h)

theorem dictSet_eq_append (k : String) (v : ℚ) :
    ∀ d : List (String × ℚ), alookup d k = none → dictSet d k v = d ++ [(k, v)] := by
  intro d
  induction d with
  | nil =>
    intro _
    simp [dictSet]
  | cons p t ih =>
    intro h
    obtain ⟨a, b⟩ := p
    by_cases hak : a = k
    · rw [show alookup ((a, b) :: t) k = some b by simp [alookup, hak]] at h
      exact absurd h (by simp)
    · rw [show alookup ((a, b) :: t) k = alookup t k by simp [alookup, hak]] at h
      simp [dictSet, hak, ih h]

theorem alookup_append_of_none (k : String) :
    ∀ d1 d2 : List (String × ℚ), alookup d1 k = none →
      alookup (d1 ++ d2) k = alookup d2 k := by
  intro d1
  induction d1 with
  | nil =>
    intro d2 _
    simp
  | cons p t ih =>
    intro d2 h
    obtain ⟨a, b⟩ := p
    by_cases hak : a = k
    · rw [show alookup ((a, b) :: t) k = some b by simp [alookup, hak]] at h
      exact absurd h (by simp)
    · rw [show alookup ((a, b) :: t) k = alookup t k by simp [alookup, hak]] at h
      rw [List.cons_append,
        show alookup ((a, b) :: (t ++ d2)) k = alookup (t ++ d2) k by simp [alookup, hak]]
      exact ih d2 h

theorem valsSum_dictSet (k : String) (v : ℚ) :
    ∀ d : List (String × ℚ),
      valsSum (dictSet d k v) = valsSum d + v - ((alookup d k).getD 0) := by
  intro d
  induction d with
  | nil =>
    simp [dictSet, valsSum, alookup]
  | cons p t ih =>
    obtain ⟨a, b⟩ := p
    by_cases hak : a = k
    · rw [show dictSet ((a, b) :: t) k v = (k, v) :: t by simp [dictSet, hak],
        show alookup ((a, b) :: t) k = some b by simp [alookup, hak]]
      simp only [valsSum, List.map_cons, List.sum_cons, Option.getD_some]
      ring
    · rw [show dictSet ((a, b) :: t) k v = (a, b) :: dictSet t k v by simp [dictSet, hak],
        show alookup ((a, b) :: t) k = alookup t k by simp [alookup, hak]]
      simp only [valsSum, List.map_cons, List.sum_cons] at *
      rw [ih]
      ring

theorem valsSum_dictAdd (d : List (String × ℚ)) (k : String) (v : ℚ) :
    valsSum (dictAdd d k v) = valsSum d + v := by
  rw [dictAdd, valsSum_dictSet]; ring

theorem valsSum_foldAdd (l : List (String × ℚ)) :
    ∀ d : List (String × ℚ),
      valsSum (l.foldl (fun dd p => dictAdd dd p.1 p.2) d) = valsSum d + valsSum l := by
  induction l with
  | nil => intro d; simp [valsSum]
  | cons p t ih =>
    intro d
    simp only [List.foldl_cons, ih, valsSum_dictAdd]
    simp [valsSum, add_assoc]

/-- All values of a cost dictionary are zero. -/
def AllZero (d : List (String × ℚ)) : Prop := ∀ p ∈ d, p.2 = 0

theorem allZero_dictSet (d : List (String × ℚ)) (k : String) (v : ℚ)
    (hd : AllZero d) (hv : v = 0) : AllZero (dictSet d k v) := by
  intro x hx
  rcases mem_dictSet k v x d hx with h | h
  · exact hd x h
  · rw [h]; exact hv

theorem allZero_dictAdd (d : List (String × ℚ)) (k : String) (v : ℚ)
    (hd : AllZero d) (hv : v = 0) : AllZero (dictAdd d k v) := by
  apply allZero_dictSet _ _ _ hd
  cases h : alookup d k with
  | none => simp [hv]
  | some c =>
    have := hd _ (alookup_mem k c d h)
    simp at this
    simp [this, hv]

theorem allZero_foldAdd (l : List (String × ℚ)) :
    ∀ d : List (String × ℚ), AllZero d → (∀ p ∈ l, p.2 = (0:ℚ)) →
      AllZero (l.foldl (fun dd p => dictAdd dd p.1 p.2) d) := by
  induction l with
  | nil => intro d hd _; exact hd
  | cons p t ih =>
    intro d hd hl
    simp only [List.foldl_cons]
    exact ih _ (allZero_dictAdd _ _ _ hd (hl p (by simp)))
      (fun q hq => hl q (List.mem_cons_of_mem _ hq))

theorem allZero_foldSetZero (l : List String) :
    ∀ d : List (String × ℚ), AllZero d →
      AllZero (l.foldl (fun dm m => dictSet dm m 0) d) := by
  induction l with
  | nil => intro d hd; exact hd
  | cons m t ih =>
    intro d hd
    simp only [List.foldl_cons]
    exact ih _ (allZero_dictSet _ _ _ hd rfl)

/-! ### Closed form of a flow step -/

theorem foldl_calls (cf : String → ℚ) (wf : String → List String) :
    ∀ (l : List String) (a : ℚ) (d : List (String × ℚ)) (w : List String),
      (l.foldl (fun acc m => (acc.1 + cf m, dictSet acc.2.1 m (cf m), acc.2.2 ++ wf m)) (a, d, w))
        = (a + (l.map cf).sum,
           l.foldl (fun dd m => dictSet dd m (cf m)) d,
           w ++ (l.map wf).flatten) := by
  intro l
  induction l with
  | nil =>
    intro a d w
    simp
  | cons m t ih =>
    intro a d w
    simp only [List.foldl_cons, List.map_cons, List.sum_cons, List.flatten_cons]
    rw [ih]
    simp [add_assoc]

/-- The dictionary a flow step builds over its charged models. -/
def stepDict (prices : Prices) (ov : Overrides) (step : FlowStep)
    (input_tokens : Int) (tp runs : Int) (l : List String) : List (String × ℚ) :=
  l.foldl (fun dd m => dictSet dd m (stepModelCost prices ov step input_tokens tp runs m)) []

theorem flow_step_eq (prices : Prices) (step : FlowStep) (models : List String)
    (tp runs : Int) (prev : Option Int) (ov : Overrides) (itoks : Int)
    (hin : calculate_input_tokens step.input_tokens_strategy step.fixed_input_tokens
      step.percent_of_previous prev = .ok itoks) :
    calculate_flow_step prices step models tp runs prev ov = .ok
      (((modelsForStep step models).map
          (stepModelCost prices ov step itoks (effPrompts step models tp) runs)).sum,
       stepDict prices ov step itoks (effPrompts step models tp) runs (modelsForStep step models),
       ((modelsForStep step models).map (stepModelWarn prices ov step itoks)).flatten) := by
  simp only [calculate_flow_step, hin]
  rw [foldl_calls]
  simp [stepDict]

/-! ### Which inputs raise: the configuration-error characterization -/

/-- A `percent_of_previous_output` step whose `percent_of_previous` is
unset. -/
def stepPercentUnset (s : FlowStep) : Bool :=
  decide (s.input_tokens_strategy = TokenStrategy.percent_of_previous_output)
    && decide (s.percent_of_previous = none)

/-- A step whose strategy needs a previous step's output. -/
def stepNeedsPrev (s : FlowStep) : Bool :=
  decide (s.input_tokens_strategy = TokenStrategy.from_previous_output)
    || decide (s.input_tokens_strategy = TokenStrategy.percent_of_previous_output)

/-- The configuration errors of one intent group. -/
def groupConfigError (g : IntentGroup) : Bool :=
  (decide (g.frequency = Frequency.custom) && decide (g.custom_runs_per_month = none))
  || (match g.flow_steps with
      | [] => false
      | s0 :: _ => stepNeedsPrev s0)
  || g.flow_steps.any stepPercentUnset

theorem citok_isOk_some (strat : TokenStrategy) (fx : Option Int) (pct : Option ℚ) (k : Int) :
    exceptIsOk (calculate_input_tokens strat fx pct (some k)) =
      !(decide (strat = TokenStrategy.percent_of_previous_output)
          && decide (pct = (none : Option ℚ))) := by
  cases strat <;> cases pct <;> simp [calculate_input_tokens, exceptIsOk]

theorem citok_isOk_none (strat : TokenStrategy) (fx : Option Int) (pct : Option ℚ) :
    exceptIsOk (calculate_input_tokens strat fx pct none) =
      !(decide (strat = TokenStrategy.from_previous_output)
          || decide (strat = TokenStrategy.percent_of_previous_output)) := by
  cases strat <;> simp [calculate_input_tokens, exceptIsOk]

theorem flow_isOk (p : Prices) (step : FlowStep) (models : List String)
    (tp runs : Int) (prev : Option Int) (ov : Overrides) :
    exceptIsOk (calculate_flow_step p step models tp runs prev ov) =
      exceptIsOk (calculate_input_tokens step.input_tokens_strategy
        step.fixed_input_tokens step.percent_of_previous prev) := by
  cases h : calculate_input_tokens step.input_tokens_strategy
      step.fixed_input_tokens step.percent_of_previous prev with
  | error e => simp [calculate_flow_step, h, exceptIsOk]
  | ok it => simp [calculate_flow_step, h, exceptIsOk]

theorem stepFold_isOk (p : Prices) (models : List String) (tp runs : Int)
    (ov : Overrides) (st : StepState) (step : FlowStep) :
    exceptIsOk (stepFold p models tp runs ov st step) =
      exceptIsOk (calculate_input_tokens step.input_tokens_strategy
        step.fixed_input_tokens step.percent_of_previous st.prev) := by
  rw [← flow_isOk p step models tp runs st.prev ov]
  cases h : calculate_flow_step p step models tp runs st.prev ov <;>
    simp [stepFold, h, exceptIsOk]

theorem stepFold_prev (p : Prices) (models : List String) (tp runs : Int)
    (ov : Overrides) (st : StepState) (step : FlowStep) (st2 : StepState)
    (h : stepFold p models tp runs ov st step = .ok st2) :
    st2.prev = some step.expected_output_tokens := by
  cases hf : calculate_flow_step p step models tp runs st.prev ov with
  | error e => simp [stepFold, hf] at h
  | ok r =>
    simp only [stepFold, hf, Except.ok.injEq] at h
    rw [← h]

theorem stepsGo_isOk_somePrev (p : Prices) (models : List String) (tp runs : Int)
    (ov : Overrides) :
    ∀ (steps : List FlowStep) (st : StepState) (k : Int), st.prev = some k →
      exceptIsOk (stepsGo p models tp runs ov steps st)
        = steps.all (fun s => !stepPercentUnset s) := by
  intro steps
  induction steps with
  | nil =>
    intro st k _
    simp [stepsGo, exceptIsOk]
  | cons s rest ih =>
    intro st k hprev
    have hiso := stepFold_isOk p models tp runs ov st s
    rw [hprev, citok_isOk_some] at hiso
    cases hsf : stepFold p models tp runs ov st s with
    | error e =>
      rw [hsf] at hiso
      simp only [exceptIsOk] at hiso
      simp only [stepsGo, hsf, exceptIsOk, List.all_cons]
      rw [show stepPercentUnset s = true by
        simp only [stepPercentUnset]
        cases hb : (decide (s.input_tokens_strategy = TokenStrategy.percent_of_previous_output)
            && decide (s.percent_of_previous = none)) with
        | true => rfl
        | false => rw [hb] at hiso; simp at hiso]
      simp
    | ok st2 =>
      rw [hsf] at hiso
      simp only [exceptIsOk] at hiso
      have hspu : stepPercentUnset s = false := by
        simp only [stepPercentUnset]
        cases hb : (decide (s.input_tokens_strategy = TokenStrategy.percent_of_previous_output)
            && decide (s.percent_of_previous = none)) with
        | false => rfl
        | true => rw [hb] at hiso; simp at hiso
      simp only [stepsGo, hsf, List.all_cons, hspu, Bool.not_false, Bool.true_and]
      exact ih st2 s.expected_output_tokens
        (stepFold_prev p models tp runs ov st s st2 hsf)

/-- Whether a step list, started with no previous output, passes the
per-step checks. -/
def stepsOkFromStart : List FlowStep → Bool
  | [] => true
  | s0 :: rest => !stepNeedsPrev s0 && rest.all (fun s => !stepPercentUnset s)

theorem stepsGo_isOk_nonePrev (p : Prices) (models : List String) (tp runs : Int)
    (ov : Overrides) (steps : List FlowStep) (st : StepState) (hprev : st.prev = none) :
    exceptIsOk (stepsGo p models tp runs ov steps st) = stepsOkFromStart steps := by
  cases steps with
  | nil => simp [stepsGo, exceptIsOk, stepsOkFromStart]
  | cons s rest =>
    have hiso := stepFold_isOk p models tp runs ov st s
    rw [hprev, citok_isOk_none] at hiso
    cases hsf : stepFold p models tp runs ov st s with
    | error e =>
      rw [hsf] at hiso
      simp only [exceptIsOk] at hiso
      have hnp : stepNeedsPrev s = true := by
        simp only [stepNeedsPrev]
        cases hb : (decide (s.input_tokens_strategy = TokenStrategy.from_previous_output)
            || decide (s.input_tokens_strategy = TokenStrategy.percent_of_previous_output)) with
        | true => rfl
        | false => rw [hb] at hiso; simp at hiso
      simp [stepsGo, hsf, exceptIsOk, stepsOkFromStart, hnp]
    | ok st2 =>
      rw [hsf] at hiso
      simp only [exceptIsOk] at hiso
      have hnp : stepNeedsPrev s = false := by
        simp only [stepNeedsPrev]
        cases hb : (decide (s.input_tokens_strategy = TokenStrategy.from_previous_output)
            || decide (s.input_tokens_strategy = TokenStrategy.percent_of_previous_output)) with
        | false => rfl
        | true => rw [hb] at hiso; simp at hiso
      simp only [stepsGo, hsf, stepsOkFromStart, hnp, Bool.not_false, Bool.true_and]
      exact stepsGo_isOk_somePrev p models tp runs ov rest st2 s.expected_output_tokens
        (stepFold_prev p models tp runs ov st s st2 hsf)

theorem runs_isOk (f : Frequency) (d : Int) (custom : Option Int) :
    exceptIsOk (get_runs_per_month f d custom) =
      !(decide (f = Frequency.custom) && decide (custom = (none : Option Int))) := by
  cases f <;> cases custom <;> simp [get_runs_per_month, exceptIsOk]

theorem group_with_runs_isOk (p : Prices) (g : IntentGroup) (models : List String)
    (ov : Overrides) (runs : Int) :
    exceptIsOk (calculate_intent_group_with_runs p g models ov runs)
      = stepsOkFromStart g.flow_steps := by
  have h := stepsGo_isOk_nonePrev p models (g.intents_count * g.variants_per_intent) runs ov
    g.flow_steps
    { total_cost := 0,
      by_model := models.foldl (fun dm m => dictSet dm m 0) [],
      by_step := [], prev := none, warnings := [] } rfl
  cases hs : stepsGo p models (g.intents_count * g.variants_per_intent) runs ov g.flow_steps
      { total_cost := 0,
        by_model := models.foldl (fun dm m => dictSet dm m 0) [],
        by_step := [], prev := none, warnings := [] } with
  | error e =>
    rw [hs] at h
    simp only [calculate_intent_group_with_runs, hs]
    exact h
  | ok st =>
    rw [hs] at h
    simp only [calculate_intent_group_with_runs, hs]
    rw [← h]
    rfl

theorem needsPrev_false_percentUnset (s : FlowStep) (h : stepNeedsPrev s = false) :
    stepPercentUnset s = false := by
  cases hst : s.input_tokens_strategy with
  | percent_of_previous_output => simp [stepNeedsPrev, hst] at h
  | from_prompt => simp [stepPercentUnset, hst]
  | fixed => simp [stepPercentUnset, hst]
  | from_previous_output => simp [stepPercentUnset, hst]

theorem all_not_eq_not_any {α : Type} (pr : α → Bool) :
    ∀ l : List α, l.all (fun a => !pr a) = !(l.any pr) := by
  intro l
  induction l with
  | nil => simp
  | cons a t ih => simp [ih]

theorem group_isOk (p : Prices) (g : IntentGroup) (models : List String)
    (d : Int) (ov : Overrides) :
    exceptIsOk (calculate_intent_group p g models d ov) = !groupConfigError g := by
  have hr := runs_isOk g.frequency d g.custom_runs_per_month
  cases hrr : get_runs_per_month g.frequency d g.custom_runs_per_month with
  | error e =>
    rw [hrr] at hr
    simp only [exceptIsOk] at hr
    have hcust : (decide (g.frequency = Frequency.custom)
        && decide (g.custom_runs_per_month = none)) = true := by
      cases hb : (decide (g.frequency = Frequency.custom)
          && decide (g.custom_runs_per_month = none)) with
      | true => rfl
      | false => rw [hb] at hr; simp at hr
    simp [calculate_intent_group, hrr, exceptIsOk, groupConfigError, hcust]
  | ok runs =>
    rw [hrr] at hr
    simp only [exceptIsOk] at hr
    have hcust : (decide (g.frequency = Frequency.custom)
        && decide (g.custom_runs_per_month = none)) = false := by
      cases hb : (decide (g.frequency = Frequency.custom)
          && decide (g.custom_runs_per_month = none)) with
      | false => rfl
      | true => rw [hb] at hr; simp at hr
    rw [show calculate_intent_group p g models d ov
        = calculate_intent_group_with_runs p g models ov runs by
      simp [calculate_intent_group, hrr]]
    rw [group_with_runs_isOk]
    simp only [groupConfigError, hcust, Bool.false_or]
    cases hfs : g.flow_steps with
    | nil => simp [stepsOkFromStart]
    | cons s0 rest =>
      cases hnp : stepNeedsPrev s0 with
      | true => simp [stepsOkFromStart, hnp]
      | false =>
        have hspu0 := needsPrev_false_percentUnset s0 hnp
        simp [stepsOkFromStart, hnp, hspu0, all_not_eq_not_any]

theorem groupsGo_isOk (p : Prices) (ov : Overrides) (models : List String) (d : Int) :
    ∀ (gs : List IntentGroup) (acc : RawResult),
      exceptIsOk (groupsGo p ov models d gs acc)
        = gs.all (fun g => !groupConfigError g) := by
  intro gs
  induction gs with
  | nil =>
    intro acc
    simp [groupsGo, exceptIsOk]
  | cons g rest ih =>
    intro acc
    have hgi := group_isOk p g models d ov
    cases hg : calculate_intent_group p g models d ov with
    | error e =>
      rw [hg] at hgi
      simp only [exceptIsOk] at hgi
      simp [groupsGo, groupFold, hg, exceptIsOk, List.all_cons, ← hgi]
    | ok r =>
      rw [hg] at hgi
      simp only [exceptIsOk] at hgi
      simp only [groupsGo, groupFold, hg, List.all_cons, ← hgi, Bool.true_and]
      exact ih _

theorem calcRaw_isOk (p : Prices) (s : Scenario) :
    exceptIsOk (calculate_scenario_raw p s)
      = s.intent_groups.all (fun g => !groupConfigError g) :=
  groupsGo_isOk p s.price_overrides s.models s.days_per_month s.intent_groups _

theorem calc_isOk (p : Prices) (s : Scenario) :
    exceptIsOk (calculate_scenario p s)
      = s.intent_groups.all (fun g => !groupConfigError g) := by
  have h := calcRaw_isOk p s
  cases hr : calculate_scenario_raw p s with
  | error e =>
    rw [hr] at h
    simp [calculate_scenario, hr, ← h, exceptIsOk]
  | ok raw =>
    rw [hr] at h
    simp [calculate_scenario, hr, ← h, exceptIsOk]

/-! ### Full-precision accumulation invariants -/

theorem stepsGo_bystep_sum (p : Prices) (models : List String) (tp runs : Int)
    (ov : Overrides) :
    ∀ (steps : List FlowStep) (st st' : StepState),
      stepsGo p models tp runs ov steps st = .ok st' →
      valsSum st'.by_step - st'.total_cost = valsSum st.by_step - st.total_cost := by
  intro steps
  induction steps with
  | nil =>
    intro st st' h
    simp only [stepsGo, Except.ok.injEq] at h
    rw [h]
  | cons s rest ih =>
    intro st st' h
    cases hf : calculate_flow_step p s models tp runs st.prev ov with
    | error e => simp [stepsGo, stepFold, hf] at h
    | ok r =>
      simp only [stepsGo, stepFold, hf] at h
      have h2 := ih _ _ h
      rw [h2]
      simp only [valsSum_dictAdd]
      ring

theorem group_bystep_sum (p : Prices) (g : IntentGroup) (models : List String)
    (d : Int) (ov : Overrides) (gc : ℚ) (det : GroupDetails)
    (h : calculate_intent_group p g models d ov = .ok (gc, det)) :
    valsSum det.by_step = gc := by
  cases hr : get_runs_per_month g.frequency d g.custom_runs_per_month with
  | error e => simp [calculate_intent_group, hr] at h
  | ok runs =>
    simp only [calculate_intent_group, hr] at h
    cases hs : stepsGo p models (g.intents_count * g.variants_per_intent) runs ov g.flow_steps
        { total_cost := 0,
          by_model := models.foldl (fun dm m => dictSet dm m 0) [],
          by_step := [], prev := none, warnings := [] } with
    | error e => simp [calculate_intent_group_with_runs, hs] at h
    | ok st =>
      simp only [calculate_intent_group_with_runs, hs, Except.ok.injEq, Prod.mk.injEq] at h
      have hsum := stepsGo_bystep_sum p models (g.intents_count * g.variants_per_intent)
        runs ov g.flow_steps _ _ hs
      simp only [valsSum, List.map_nil, List.sum_nil] at hsum
      obtain ⟨h1, h2⟩ := h
      rw [← h1, ← h2]
      have hz : valsSum st.by_step - st.total_cost = 0 := by
        simp only [valsSum]
        linarith [hsum]
      exact sub_eq_zero.mp hz

theorem groupsGo_sums (p : Prices) (ov : Overrides) (models : List String) (d : Int) :
    ∀ (gs : List IntentGroup) (acc raw : RawResult),
      groupsGo p ov models d gs acc = .ok raw →
      valsSum raw.by_step - raw.total_cost = valsSum acc.by_step - acc.total_cost
      ∧ raw.total_cost - (raw.by_intent_group.map IntentGroupEntry.cost_usd).sum
        = acc.total_cost - (acc.by_intent_group.map IntentGroupEntry.cost_usd).sum := by
  intro gs
  induction gs with
  | nil =>
    intro acc raw h
    simp only [groupsGo, Except.ok.injEq] at h
    rw [h]
    exact ⟨rfl, rfl⟩
  | cons g rest ih =>
    intro acc raw h
    cases hg : calculate_intent_group p g models d ov with
    | error e => simp [groupsGo, groupFold, hg] at h
    | ok r =>
      simp only [groupsGo, groupFold, hg] at h
      obtain ⟨h1, h2⟩ := ih _ _ h
      constructor
      · rw [h1]
        simp only [valsSum_foldAdd]
        have hdet := group_bystep_sum p g models d ov r.1 r.2 (by rw [hg])
        rw [hdet]
        ring
      · rw [h2]
        simp only [List.map_append, List.sum_append, List.map_cons, List.map_nil,
          List.sum_cons, List.sum_nil]
        ring

theorem raw_bystep_total (p : Prices) (s : Scenario) (raw : RawResult)
    (h : calculate_scenario_raw p s = .ok raw) :
    valsSum raw.by_step = raw.total_cost
    ∧ raw.total_cost = (raw.by_intent_group.map IntentGroupEntry.cost_usd).sum := by
  obtain ⟨h1, h2⟩ := groupsGo_sums p s.price_overrides s.models s.days_per_month
    s.intent_groups _ raw h
  simp only [valsSum, List.map_nil, List.sum_nil] at h1 h2
  constructor
  · have := sub_eq_zero.mp (by rw [h1]; ring)
    exact this
  · have := sub_eq_zero.mp (by rw [h2]; ring)
    exact this

/-! ### Linearity of a group's cost in `runs_per_month` -/

theorem stepModelCost_linear (p : Prices) (ov : Overrides) (step : FlowStep)
    (it : Int) (tp r : Int) (m : String) :
    stepModelCost p ov step it tp r m = (r : ℚ) * stepModelCost p ov step it tp 1 m := by
  simp only [stepModelCost, Int.cast_one]
  ring

theorem stepCostSum_linear (p : Prices) (ov : Overrides) (step : FlowStep)
    (it : Int) (tp r : Int) :
    ∀ l : List String,
      (l.map (stepModelCost p ov step it tp r)).sum
        = (r : ℚ) * (l.map (stepModelCost p ov step it tp 1)).sum := by
  intro l
  induction l with
  | nil => simp
  | cons m t ih =>
    simp only [List.map_cons, List.sum_cons, ih, stepModelCost_linear p ov step it tp r m]
    ring

theorem stepsGo_linear (p : Prices) (models : List String) (tp : Int) (ov : Overrides)
    (r : Int) :
    ∀ (steps : List FlowStep) (st1 str : StepState), str.prev = st1.prev →
      ∀ st1', stepsGo p models tp 1 ov steps st1 = .ok st1' →
      ∃ str', stepsGo p models tp r ov steps str = .ok str'
        ∧ str'.prev = st1'.prev
        ∧ str'.total_cost - str.total_cost = (r : ℚ) * (st1'.total_cost - st1.total_cost) := by
  intro steps
  induction steps with
  | nil =>
    intro st1 str hprev st1' h
    simp only [stepsGo, Except.ok.injEq] at h
    refine ⟨str, rfl, ?_, ?_⟩
    · rw [← h, hprev]
    · rw [← h]; ring
  | cons s rest ih =>
    intro st1 str hprev st1' h
    cases hc : calculate_input_tokens s.input_tokens_strategy s.fixed_input_tokens
        s.percent_of_previous st1.prev with
    | error e =>
      exfalso
      simp [stepsGo, stepFold, calculate_flow_step, hc] at h
    | ok itoks =>
      have hf1 := flow_step_eq p s models tp 1 st1.prev ov itoks hc
      have hfr := flow_step_eq p s models tp r str.prev ov itoks (by rw [hprev]; exact hc)
      simp only [stepsGo, stepFold, hf1] at h
      obtain ⟨str', hgo, hprev', htot⟩ := ih
        { total_cost := st1.total_cost
            + ((modelsForStep s models).map
                (stepModelCost p ov s itoks (effPrompts s models tp) 1)).sum,
          by_model := (stepDict p ov s itoks (effPrompts s models tp) 1
            (modelsForStep s models)).foldl (fun d pp => dictAdd d pp.1 pp.2) st1.by_model,
          by_step := dictAdd st1.by_step s.name
            ((modelsForStep s models).map
              (stepModelCost p ov s itoks (effPrompts s models tp) 1)).sum,
          prev := some s.expected_output_tokens,
          warnings := st1.warnings
            ++ ((modelsForStep s models).map (stepModelWarn p ov s itoks)).flatten }
        { total_cost := str.total_cost
            + ((modelsForStep s models).map
                (stepModelCost p ov s itoks (effPrompts s models tp) r)).sum,
          by_model := (stepDict p ov s itoks (effPrompts s models tp) r
            (modelsForStep s models)).foldl (fun d pp => dictAdd d pp.1 pp.2) str.by_model,
          by_step := dictAdd str.by_step s.name
            ((modelsForStep s models).map
              (stepModelCost p ov s itoks (effPrompts s models tp) r)).sum,
          prev := some s.expected_output_tokens,
          warnings := str.warnings
            ++ ((modelsForStep s models).map (stepModelWarn p ov s itoks)).flatten }
        rfl st1' h
      refine ⟨str', ?_, hprev', ?_⟩
      · simp only [stepsGo, stepFold, hfr]
        exact hgo
      · dsimp only at htot
        have hlin := stepCostSum_linear p ov s itoks (effPrompts s models tp) r
          (modelsForStep s models)
        linear_combination htot + hlin

theorem group_with_runs_linear (p : Prices) (g : IntentGroup) (models : List String)
    (ov : Overrides) (r : Int) (c : ℚ) (det : GroupDetails)
    (h : calculate_intent_group_with_runs p g models ov 1 = .ok (c, det)) :
    ∃ det', calculate_intent_group_with_runs p g models ov r = .ok ((r : ℚ) * c, det') := by
  cases hs : stepsGo p models (g.intents_count * g.variants_per_intent) 1 ov g.flow_steps
      { total_cost := 0,
        by_model := models.foldl (fun dm m => dictSet dm m 0) [],
        by_step := [], prev := none, warnings := [] } with
  | error e => simp [calculate_intent_group_with_runs, hs] at h
  | ok st1 =>
    simp only [calculate_intent_group_with_runs, hs, Except.ok.injEq, Prod.mk.injEq] at h
    obtain ⟨hst, _⟩ := h
    obtain ⟨str', hgo, _, htot⟩ := stepsGo_linear p models
      (g.intents_count * g.variants_per_intent) ov r g.flow_steps _ _ rfl _ hs
    dsimp only at htot
    rw [sub_zero, sub_zero] at htot
    refine
      ⟨{ calls := (g.flow_steps.map
           (fun s => (models.length : Int) * (g.intents_count * g.variants_per_intent)
             * r * s.runs_per_prompt)).sum,
         input_tokens := 0, output_tokens := 0, by_model := str'.by_model,
         by_step := str'.by_step, warnings := str'.warnings }, ?_⟩
    simp only [calculate_intent_group_with_runs, hgo, Except.ok.injEq, Prod.mk.injEq]
    exact ⟨by rw [htot, hst], trivial⟩

/-! ### Per-group cost lists -/

/-- The list of group costs of a scenario, in order. -/
def groupCosts (p : Prices) (models : List String) (d : Int) (ov : Overrides) :
    List IntentGroup → Except ConfigError (List ℚ)
  | [] => .ok []
  | g :: t =>
    match calculate_intent_group p g models d ov with
    | .error e => .error e
    | .ok r =>
      match groupCosts p models d ov t with
      | .error e => .error e
      | .ok cs => .ok (r.1 :: cs)

theorem groupsGo_total (p : Prices) (ov : Overrides) (models : List String) (d : Int) :
    ∀ (gs : List IntentGroup) (acc raw : RawResult),
      groupsGo p ov models d gs acc = .ok raw →
      ∃ cs, groupCosts p models d ov gs = .ok cs
        ∧ raw.total_cost = acc.total_cost + cs.sum := by
  intro gs
  induction gs with
  | nil =>
    intro acc raw h
    simp only [groupsGo, Except.ok.injEq] at h
    exact ⟨[], rfl, by rw [← h]; simp⟩
  | cons g rest ih =>
    intro acc raw h
    cases hg : calculate_intent_group p g models d ov with
    | error e => simp [groupsGo, groupFold, hg] at h
    | ok r =>
      simp only [groupsGo, groupFold, hg] at h
      obtain ⟨cs, hcs, hsum⟩ := ih _ _ h
      refine ⟨r.1 :: cs, ?_, ?_⟩
      · simp only [groupCosts, hg, hcs]
      · rw [hsum]
        simp only [List.sum_cons]
        ring

theorem groupCosts_append (p : Prices) (models : List String) (d : Int) (ov : Overrides) :
    ∀ (l1 l2 : List IntentGroup) (cs : List ℚ),
      groupCosts p models d ov (l1 ++ l2) = .ok cs →
      ∃ cs1 cs2, groupCosts p models d ov l1 = .ok cs1
        ∧ groupCosts p models d ov l2 = .ok cs2 ∧ cs = cs1 ++ cs2 := by
  intro l1
  induction l1 with
  | nil =>
    intro l2 cs h
    exact ⟨[], cs, rfl, h, rfl⟩
  | cons g t ih =>
    intro l2 cs h
    rw [List.cons_append] at h
    cases hg : calculate_intent_group p g models d ov with
    | error e => simp [groupCosts, hg] at h
    | ok r =>
      simp only [groupCosts, hg] at h
      cases hrec : groupCosts p models d ov (t ++ l2) with
      | error e => rw [hrec] at h; simp at h
      | ok cs' =>
        rw [hrec] at h
        simp only [Except.ok.injEq] at h
        obtain ⟨cs1, cs2, h1, h2, h3⟩ := ih l2 cs' hrec
        refine ⟨r.1 :: cs1, cs2, ?_, h2, ?_⟩
        · simp only [groupCosts, hg, h1]
        · rw [← h, h3]
          simp

/-! ### Per-step cost lists (locality of the specific-model multiplication) -/

/-- The cost of each step of a group computed independently, each from
the group's base `total_prompts` and the preceding step's
`expected_output_tokens`. -/
def stepCostsList (p : Prices) (models : List String) (tp runs : Int) (ov : Overrides) :
    Option Int → List FlowStep → Except ConfigError (List (String × ℚ))
  | _, [] => .ok []
  | prev, s :: rest =>
    match calculate_flow_step p s models tp runs prev ov with
    | .error e => .error e
    | .ok r =>
      match stepCostsList p models tp runs ov (some s.expected_output_tokens) rest with
      | .error e => .error e
      | .ok l => .ok ((s.name, r.1) :: l)

theorem stepsGo_by_step (p : Prices) (models : List String) (tp runs : Int)
    (ov : Overrides) :
    ∀ (steps : List FlowStep) (st st' : StepState),
      (steps.map FlowStep.name).Nodup →
      (∀ s ∈ steps, alookup st.by_step s.name = none) →
      stepsGo p models tp runs ov steps st = .ok st' →
      ∃ l, stepCostsList p models tp runs ov st.prev steps = .ok l
        ∧ st'.by_step = st.by_step ++ l := by
  intro steps
  induction steps with
  | nil =>
    intro st st' _ _ h
    simp only [stepsGo, Except.ok.injEq] at h
    exact ⟨[], rfl, by rw [← h]; simp⟩
  | cons s rest ih =>
    intro st st' hnd hlk h
    cases hf : calculate_flow_step p s models tp runs st.prev ov with
    | error e => simp [stepsGo, stepFold, hf] at h
    | ok r =>
      simp only [stepsGo, stepFold, hf] at h
      have hnone : alookup st.by_step s.name = none := hlk s (by simp)
      have hset : dictAdd st.by_step s.name r.1 = st.by_step ++ [(s.name, r.1)] := by
        rw [dictAdd, hnone]
        simp only [Option.getD_none, zero_add]
        exact dictSet_eq_append s.name r.1 st.by_step hnone
      rw [hset] at h
      have hnd2 : (rest.map FlowStep.name).Nodup := (List.nodup_cons.mp hnd).2
      have hnotmem : s.name ∉ rest.map FlowStep.name := (List.nodup_cons.mp hnd).1
      have hlk2 : ∀ s' ∈ rest,
          alookup (st.by_step ++ [(s.name, r.1)]) s'.name = none := by
        intro s' hs'
        rw [alookup_append_of_none s'.name st.by_step [(s.name, r.1)]
          (hlk s' (List.mem_cons_of_mem _ hs'))]
        have hne : ¬ s.name = s'.name := by
          intro hcontra
          exact hnotmem (hcontra ▸ List.mem_map_of_mem FlowStep.name hs')
        simp [alookup, hne]
      obtain ⟨l, hl, hbs⟩ := ih _ _ hnd2 hlk2 h
      refine ⟨(s.name, r.1) :: l, ?_, ?_⟩
      · simp only [stepCostsList, hf]
        rw [hl]
      · rw [hbs]
        simp

theorem group_by_step_eq (p : Prices) (g : IntentGroup) (models : List String)
    (d : Int) (ov : Overrides) (gc : ℚ) (det : GroupDetails)
    (hnd : (g.flow_steps.map FlowStep.name).Nodup)
    (h : calculate_intent_group p g models d ov = .ok (gc, det)) :
    ∃ runs l, get_runs_per_month g.frequency d g.custom_runs_per_month = .ok runs
      ∧ stepCostsList p models (g.intents_count * g.variants_per_intent) runs ov
          none g.flow_steps = .ok l
      ∧ det.by_step = l := by
  cases hr : get_runs_per_month g.frequency d g.custom_runs_per_month with
  | error e => simp [calculate_intent_group, hr] at h
  | ok runs =>
    simp only [calculate_intent_group, hr] at h
    cases hs : stepsGo p models (g.intents_count * g.variants_per_intent) runs ov g.flow_steps
        { total_cost := 0,
          by_model := models.foldl (fun dm m => dictSet dm m 0) [],
          by_step := [], prev := none, warnings := [] } with
    | error e => simp [calculate_intent_group_with_runs, hs] at h
    | ok st =>
      simp only [calculate_intent_group_with_runs, hs, Except.ok.injEq, Prod.mk.injEq] at h
      obtain ⟨l, hl, hbs⟩ := stepsGo_by_step p models
        (g.intents_count * g.variants_per_intent) runs ov g.flow_steps _ _ hnd
        (by intro s _; simp [alookup]) hs
      refine ⟨runs, l, rfl, hl, ?_⟩
      rw [← h.2]
      dsimp only
      rw [hbs]
      simp

/-! ### Zero-cost propagation for unknown models and empty price tables -/

/-- Every binding of key `m` in the dictionary has value zero. -/
def ZeroAt (m : String) (d : List (String × ℚ)) : Prop := ∀ c, (m, c) ∈ d → c = 0

theorem zeroAt_dictSet (m k : String) (v : ℚ) (d : List (String × ℚ))
    (hv : k = m → v = 0) (hd : ZeroAt m d) : ZeroAt m (dictSet d k v) := by
  intro c hc
  rcases mem_dictSet k v (m, c) d hc with h | h
  · exact hd c h
  · have hk : m = k := congrArg Prod.fst h
    have hcv : c = v := congrArg Prod.snd h
    rw [hcv]
    exact hv hk.symm

theorem zeroAt_getD (m : String) (d : List (String × ℚ)) (hd : ZeroAt m d) :
    (alookup d m).getD 0 = 0 := by
  cases h : alookup d m with
  | none => rfl
  | some c => simpa using hd c (alookup_mem m c d h)

theorem zeroAt_dictAdd (m k : String) (v : ℚ) (d : List (String × ℚ))
    (hv : k = m → v = 0) (hd : ZeroAt m d) : ZeroAt m (dictAdd d k v) := by
  apply zeroAt_dictSet m k _ d _ hd
  intro hk
  rw [hk, zeroAt_getD m d hd, hv hk, add_zero]

theorem zeroAt_foldAdd (m : String) (l : List (String × ℚ)) :
    ∀ d : List (String × ℚ), ZeroAt m d → ZeroAt m l →
      ZeroAt m (l.foldl (fun dd p => dictAdd dd p.1 p.2) d) := by
  induction l with
  | nil => intro d hd _; exact hd
  | cons p t ih =>
    intro d hd hl
    simp only [List.foldl_cons]
    refine ih _ (zeroAt_dictAdd m p.1 p.2 d ?_ hd) ?_
    · intro hk
      exact hl p.2 (by rw [← hk]; simp)
    · intro c hc
      exact hl c (List.mem_cons_of_mem _ hc)

theorem zeroAt_foldSetF (m : String) (f : String → ℚ) (hf : f m = 0)
    (l : List String) :
    ∀ d : List (String × ℚ), ZeroAt m d →
      ZeroAt m (l.foldl (fun dd x => dictSet dd x (f x)) d) := by
  induction l with
  | nil => intro d hd; exact hd
  | cons x t ih =>
    intro d hd
    simp only [List.foldl_cons]
    refine ih _ (zeroAt_dictSet m x (f x) d ?_ hd)
    intro hk
    rw [hk, hf]

theorem someAt_dictSet (m k : String) (v : ℚ) (d : List (String × ℚ))
    (hd : (alookup d m).isSome) : (alookup (dictSet d k v) m).isSome := by
  rw [alookup_dictSet k v d m]
  by_cases h : k = m <;> simp [h, hd]

theorem someAt_foldAdd (m : String) (l : List (String × ℚ)) :
    ∀ d : List (String × ℚ), (alookup d m).isSome →
      (alookup (l.foldl (fun dd p => dictAdd dd p.1 p.2) d) m).isSome := by
  induction l with
  | nil => intro d hd; exact hd
  | cons p t ih =>
    intro d hd
    simp only [List.foldl_cons]
    exact ih _ (someAt_dictSet m p.1 _ d hd)

theorem someAt_foldSetF (m : String) (f : String → ℚ) (l : List String) :
    ∀ d : List (String × ℚ), (alookup d m).isSome →
      (alookup (l.foldl (fun dd x => dictSet dd x (f x)) d) m).isSome := by
  induction l with
  | nil => intro d hd; exact hd
  | cons x t ih =>
    intro d hd
    simp only [List.foldl_cons]
    exact ih _ (someAt_dictSet m x (f x) d hd)

theorem someAt_foldSetZero_mem (m : String) (l : List String) (hm : m ∈ l) :
    ∀ d : List (String × ℚ),
      (alookup (l.foldl (fun dm x => dictSet dm x 0) d) m).isSome := by
  induction l with
  | nil => cases hm
  | cons x t ih =>
    intro d
    simp only [List.foldl_cons]
    rcases List.mem_cons.mp hm with h | h
    · refine someAt_foldSetF m (fun _ => 0) t _ ?_
      rw [alookup_dictSet]
      simp [h.symm]
    · exact ih h _

/-- An unknown model costs nothing and triggers the warning
(`_calculate_single_call`, lines 240-242). -/
theorem singlecall_none (p : Prices) (m : String) (it ot : Int) (uc : Bool)
    (ov : List (String × ℚ)) (h : alookup p m = none) :
    calculate_single_call p m it ot uc ov = (0, [warnMsg m]) := by
  simp [calculate_single_call, h]

theorem stepModelCost_none (p : Prices) (ov : Overrides) (step : FlowStep)
    (it tp runs : Int) (m : String) (h : alookup p m = none) :
    stepModelCost p ov step it tp runs m = 0 := by
  simp [stepModelCost, singlecall_none p m it step.expected_output_tokens
    step.use_cached_input ((alookup ov m).getD []) h]

theorem stepDict_zeroAt (p : Prices) (ov : Overrides) (step : FlowStep)
    (it tp runs : Int) (m : String) (h : alookup p m = none) (l : List String) :
    ZeroAt m (stepDict p ov step it tp runs l) := by
  refine zeroAt_foldSetF m _ ?_ l [] ?_
  · exact stepModelCost_none p ov step it tp runs m h
  · intro c hc
    cases hc

theorem stepsGo_zeroAt_by_model (p : Prices) (models : List String) (tp runs : Int)
    (ov : Overrides) (m : String) (hm : alookup p m = none) :
    ∀ (steps : List FlowStep) (st st' : StepState),
      stepsGo p models tp runs ov steps st = .ok st' →
      ZeroAt m st.by_model → ZeroAt m st'.by_model := by
  intro steps
  induction steps with
  | nil =>
    intro st st' h hz
    simp only [stepsGo, Except.ok.injEq] at h
    rw [← h]
    exact hz
  | cons s rest ih =>
    intro st st' h hz
    cases hc : calculate_input_tokens s.input_tokens_strategy s.fixed_input_tokens
        s.percent_of_previous st.prev with
    | error e => simp [stepsGo, stepFold, calculate_flow_step, hc] at h
    | ok itoks =>
      have hf := flow_step_eq p s models tp runs st.prev ov itoks hc
      simp only [stepsGo, stepFold, hf] at h
      refine ih _ _ h ?_
      exact zeroAt_foldAdd m _ st.by_model hz
        (stepDict_zeroAt p ov s itoks (effPrompts s models tp) runs m hm _)

theorem stepsGo_someAt_by_model (p : Prices) (models : List String) (tp runs : Int)
    (ov : Overrides) (m : String) :
    ∀ (steps : List FlowStep) (st st' : StepState),
      stepsGo p models tp runs ov steps st = .ok st' →
      (alookup st.by_model m).isSome → (alookup st'.by_model m).isSome := by
  intro steps
  induction steps with
  | nil =>
    intro st st' h hs
    simp only [stepsGo, Except.ok.injEq] at h
    rw [← h]
    exact hs
  | cons s rest ih =>
    intro st st' h hs
    cases hc : calculate_input_tokens s.input_tokens_strategy s.fixed_input_tokens
        s.percent_of_previous st.prev with
    | error e => simp [stepsGo, stepFold, calculate_flow_step, hc] at h
    | ok itoks =>
      have hf := flow_step_eq p s models tp runs st.prev ov itoks hc
      simp only [stepsGo, stepFold, hf] at h
      exact ih _ _ h (someAt_foldAdd m _ st.by_model hs)

theorem group_zeroAt_by_model (p : Prices) (g : IntentGroup) (models : List String)
    (d : Int) (ov : Overrides) (m : String) (hm : alookup p m = none)
    (gc : ℚ) (det : GroupDetails)
    (h : calculate_intent_group p g models d ov = .ok (gc, det)) :
    ZeroAt m det.by_model := by
  cases hr : get_runs_per_month g.frequency d g.custom_runs_per_month with
  | error e => simp [calculate_intent_group, hr] at h
  | ok runs =>
    simp only [calculate_intent_group, hr] at h
    cases hs : stepsGo p models (g.intents_count * g.variants_per_intent) runs ov g.flow_steps
        { total_cost := 0,
          by_model := models.foldl (fun dm m => dictSet dm m 0) [],
          by_step := [], prev := none, warnings := [] } with
    | error e => simp [calculate_intent_group_with_runs, hs] at h
    | ok st =>
      simp only [calculate_intent_group_with_runs, hs, Except.ok.injEq, Prod.mk.injEq] at h
      have hz : ZeroAt m st.by_model := by
        refine stepsGo_zeroAt_by_model p models _ runs ov m hm g.flow_steps _ _ hs ?_
        refine zeroAt_foldSetF m (fun _ => 0) rfl models [] ?_
        intro c hc
        cases hc
      rw [← h.2]
      exact hz

theorem group_someAt_by_model (p : Prices) (g : IntentGroup) (models : List String)
    (d : Int) (ov : Overrides) (m : String) (hmem : m ∈ models)
    (gc : ℚ) (det : GroupDetails)
    (h : calculate_intent_group p g models d ov = .ok (gc, det)) :
    (alookup det.by_model m).isSome := by
  cases hr : get_runs_per_month g.frequency d g.custom_runs_per_month with
  | error e => simp [calculate_intent_group, hr] at h
  | ok runs =>
    simp only [calculate_intent_group, hr] at h
    cases hs : stepsGo p models (g.intents_count * g.variants_per_intent) runs ov g.flow_steps
        { total_cost := 0,
          by_model := models.foldl (fun dm m => dictSet dm m 0) [],
          by_step := [], prev := none, warnings := [] } with
    | error e => simp [calculate_intent_group_with_runs, hs] at h
    | ok st =>
      simp only [calculate_intent_group_with_runs, hs, Except.ok.injEq, Prod.mk.injEq] at h
      rw [← h.2]
      refine stepsGo_someAt_by_model p models _ runs ov m g.flow_steps _ _ hs ?_
      exact someAt_foldSetZero_mem m models hmem []

theorem groupsGo_zeroAt_by_model (p : Prices) (ov : Overrides) (models : List String)
    (d : Int) (m : String) (hm : alookup p m = none) :
    ∀ (gs : List IntentGroup) (acc raw : RawResult),
      groupsGo p ov models d gs acc = .ok raw →
      ZeroAt m acc.by_model → ZeroAt m raw.by_model := by
  intro gs
  induction gs with
  | nil =>
    intro acc raw h hz
    simp only [groupsGo, Except.ok.injEq] at h
    rw [← h]
    exact hz
  | cons g rest ih =>
    intro acc raw h hz
    cases hg : calculate_intent_group p g models d ov with
    | error e => simp [groupsGo, groupFold, hg] at h
    | ok r =>
      simp only [groupsGo, groupFold, hg] at h
      refine ih _ _ h ?_
      exact zeroAt_foldAdd m _ acc.by_model hz
        (group_zeroAt_by_model p g models d ov m hm r.1 r.2 (by rw [hg]))

theorem groupsGo_someAt_by_model (p : Prices) (ov : Overrides) (models : List String)
    (d : Int) (m : String) :
    ∀ (gs : List IntentGroup) (acc raw : RawResult),
      groupsGo p ov models d gs acc = .ok raw →
      (alookup acc.by_model m).isSome → (alookup raw.by_model m).isSome := by
  intro gs
  induction gs with
  | nil =>
    intro acc raw h hs
    simp only [groupsGo, Except.ok.injEq] at h
    rw [← h]
    exact hs
  | cons g rest ih =>
    intro acc raw h hs
    cases hg : calculate_intent_group p g models d ov with
    | error e => simp [groupsGo, groupFold, hg] at h
    | ok r =>
      simp only [groupsGo, groupFold, hg] at h
      exact ih _ _ h (someAt_foldAdd m _ acc.by_model hs)

theorem raw_zeroAt_by_model (p : Prices) (s : Scenario) (m : String)
    (hm : alookup p m = none) (raw : RawResult)
    (h : calculate_scenario_raw p s = .ok raw) : ZeroAt m raw.by_model := by
  refine groupsGo_zeroAt_by_model p s.price_overrides s.models s.days_per_month m hm
    s.intent_groups _ raw h ?_
  refine zeroAt_foldSetF m (fun _ => 0) rfl s.models [] ?_
  intro c hc
  cases hc

theorem raw_someAt_by_model (p : Prices) (s : Scenario) (m : String)
    (hmem : m ∈ s.models) (raw : RawResult)
    (h : calculate_scenario_raw p s = .ok raw) : (alookup raw.by_model m).isSome := by
  refine groupsGo_someAt_by_model p s.price_overrides s.models s.days_per_month m
    s.intent_groups _ raw h ?_
  exact someAt_foldSetZero_mem m s.models hmem []

theorem allZero_valsSum (d : List (String × ℚ)) (h : AllZero d) : valsSum d = 0 := by
  simp only [valsSum]
  apply List.sum_eq_zero
  intro x hx
  obtain ⟨pp, hpp, hx2⟩ := List.mem_map.mp hx
  rw [← hx2]
  exact h pp hpp

theorem allZero_foldSetF (f : String → ℚ) (hf : ∀ x, f x = 0) (l : List String) :
    ∀ d : List (String × ℚ), AllZero d →
      AllZero (l.foldl (fun dd x => dictSet dd x (f x)) d) := by
  induction l with
  | nil => intro d hd; exact hd
  | cons x t ih =>
    intro d hd
    simp only [List.foldl_cons]
    exact ih _ (allZero_dictSet _ _ _ hd (hf x))

theorem stepDict_allZero (p : Prices) (ov : Overrides) (step : FlowStep)
    (it tp runs : Int) (hm : ∀ m : String, alookup p m = none) (l : List String) :
    AllZero (stepDict p ov step it tp runs l) := by
  refine allZero_foldSetF _ ?_ l [] ?_
  · intro x
    exact stepModelCost_none p ov step it tp runs x (hm x)
  · intro c hc
    cases hc

theorem stepCostSum_zero (p : Prices) (ov : Overrides) (step : FlowStep)
    (it tp runs : Int) (hm : ∀ m : String, alookup p m = none) (l : List String) :
    (l.map (stepModelCost p ov step it tp runs)).sum = 0 := by
  apply List.sum_eq_zero
  intro x hx
  obtain ⟨m, _, hx2⟩ := List.mem_map.mp hx
  rw [← hx2]
  exact stepModelCost_none p ov step it tp runs m (hm m)

theorem stepsGo_allZero (p : Prices) (models : List String) (tp runs : Int)
    (ov : Overrides) (hm : ∀ m : String, alookup p m = none) :
    ∀ (steps : List FlowStep) (st st' : StepState),
      stepsGo p models tp runs ov steps st = .ok st' →
      AllZero st.by_model → AllZero st.by_step →
      AllZero st'.by_model ∧ AllZero st'.by_step := by
  intro steps
  induction steps with
  | nil =>
    intro st st' h h1 h2
    simp only [stepsGo, Except.ok.injEq] at h
    rw [← h]
    exact ⟨h1, h2⟩
  | cons s rest ih =>
    intro st st' h h1 h2
    cases hc : calculate_input_tokens s.input_tokens_strategy s.fixed_input_tokens
        s.percent_of_previous st.prev with
    | error e => simp [stepsGo, stepFold, calculate_flow_step, hc] at h
    | ok itoks =>
      have hf := flow_step_eq p s models tp runs st.prev ov itoks hc
      simp only [stepsGo, stepFold, hf] at h
      refine ih _ _ h ?_ ?_
      · exact allZero_foldAdd _ st.by_model h1
          (stepDict_allZero p ov s itoks (effPrompts s models tp) runs hm _)
      · exact allZero_dictAdd st.by_step s.name _ h2
          (stepCostSum_zero p ov s itoks (effPrompts s models tp) runs hm _)

theorem group_allZero (p : Prices) (g : IntentGroup) (models : List String)
    (d : Int) (ov : Overrides) (hm : ∀ m : String, alookup p m = none)
    (gc : ℚ) (det : GroupDetails)
    (h : calculate_intent_group p g models d ov = .ok (gc, det)) :
    gc = 0 ∧ AllZero det.by_model ∧ AllZero det.by_step := by
  have hsum := group_bystep_sum p g models d ov gc det h
  cases hr : get_runs_per_month g.frequency d g.custom_runs_per_month with
  | error e => simp [calculate_intent_group, hr] at h
  | ok runs =>
    simp only [calculate_intent_group, hr] at h
    cases hs : stepsGo p models (g.intents_count * g.variants_per_intent) runs ov g.flow_steps
        { total_cost := 0,
          by_model := models.foldl (fun dm m => dictSet dm m 0) [],
          by_step := [], prev := none, warnings := [] } with
    | error e => simp [calculate_intent_group_with_runs, hs] at h
    | ok st =>
      simp only [calculate_intent_group_with_runs, hs, Except.ok.injEq, Prod.mk.injEq] at h
      have hz := stepsGo_allZero p models (g.intents_count * g.variants_per_intent)
        runs ov hm g.flow_steps _ _ hs
        (allZero_foldSetZero models [] (by intro x hx; cases hx))
        (by intro x hx; cases hx)
      have hbm : AllZero det.by_model := by rw [← h.2]; exact hz.1
      have hbs : AllZero det.by_step := by rw [← h.2]; exact hz.2
      refine ⟨?_, hbm, hbs⟩
      rw [← hsum]
      exact allZero_valsSum _ hbs

theorem groupsGo_allZero (p : Prices) (ov : Overrides) (models : List String)
    (d : Int) (hm : ∀ m : String, alookup p m = none) :
    ∀ (gs : List IntentGroup) (acc raw : RawResult),
      groupsGo p ov models d gs acc = .ok raw →
      AllZero acc.by_model → AllZero acc.by_step →
      (∀ e ∈ acc.by_intent_group, e.cost_usd = 0) →
      AllZero raw.by_model ∧ AllZero raw.by_step
        ∧ (∀ e ∈ raw.by_intent_group, e.cost_usd = 0) := by
  intro gs
  induction gs with
  | nil =>
    intro acc raw h h1 h2 h3
    simp only [groupsGo, Except.ok.injEq] at h
    rw [← h]
    exact ⟨h1, h2, h3⟩
  | cons g rest ih =>
    intro acc raw h h1 h2 h3
    cases hg : calculate_intent_group p g models d ov with
    | error e => simp [groupsGo, groupFold, hg] at h
    | ok r =>
      simp only [groupsGo, groupFold, hg] at h
      obtain ⟨hgc, hbm, hbs⟩ := group_allZero p g models d ov hm r.1 r.2 (by rw [hg])
      refine ih _ _ h ?_ ?_ ?_
      · exact allZero_foldAdd _ acc.by_model h1 hbm
      · exact allZero_foldAdd _ acc.by_step h2 hbs
      · intro e he
        rcases List.mem_append.mp he with he' | he'
        · exact h3 e he'
        · rw [List.mem_singleton.mp he']
          exact hgc

theorem alookup_nil (m : String) : alookup ([] : Prices) m = none := rfl

theorem raw_allZero (s : Scenario) (raw : RawResult)
    (h : calculate_scenario_raw [] s = .ok raw) :
    raw.total_cost = 0 ∧ AllZero raw.by_model ∧ AllZero raw.by_step
      ∧ (∀ e ∈ raw.by_intent_group, e.cost_usd = 0) := by
  obtain ⟨hbm, hbs, hbg⟩ := groupsGo_allZero [] s.price_overrides s.models
    s.days_per_month alookup_nil s.intent_groups _ raw h
    (allZero_foldSetZero s.models [] (by intro x hx; cases hx))
    (by intro x hx; cases hx)
    (by intro e he; cases he)
  refine ⟨?_, hbm, hbs, hbg⟩
  have := (raw_bystep_total [] s raw h).1
  rw [← this]
  exact allZero_valsSum _ hbs

theorem round2_zero : round2 0 = 0 := by
  norm_num [round2, roundHalfEven]

/-! ### Projections used to state concrete results -/

/-- The (rounded) total of a successful calculation. -/
def resultTotal (e : Except ConfigError (SimulationResult × List String)) : Option ℚ :=
  match e with
  | .ok r => some r.1.total_monthly_cost_usd
  | .error _ => none

/-- The full-precision total of a successful accumulation. -/
def rawTotal (p : Prices) (s : Scenario) : Option ℚ :=
  match calculate_scenario_raw p s with
  | .ok raw => some raw.total_cost
  | .error _ => none

/-- The cost component of a successful group calculation. -/
def okCost (e : Except ConfigError (ℚ × GroupDetails)) : Option ℚ :=
  match e with
  | .ok r => some r.1
  | .error _ => none

/-- The call count of a successful group calculation. -/
def okCalls (e : Except ConfigError (ℚ × GroupDetails)) : Option Int :=
  match e with
  | .ok r => some r.2.calls
  | .error _ => none

/-- The `by_intent_group` cost list of a successful calculation. -/
def resultGroupCosts (e : Except ConfigError (SimulationResult × List String)) : List ℚ :=
  match e with
  | .ok r => r.1.by_intent_group.map IntentGroupEntry.cost_usd
  | .error _ => []

/-! ### Claim C1 -/

/-- A price entry with no cached-input price in the table. -/
def C1price : ModelPrice :=
  { id := "m", vendor := "v", name := "M", input_per_million := 10,
    output_per_million := 0, input_cached_per_million := none, updated_at := 0 }

/-- Claim C1 counterexample: for a model whose table entry has no
cached-input price, a cached-input price supplied only via
`price_overrides` is NOT substituted — the call is charged at the plain
input price 10 per million, not the override cached price 1 per
million, contradicting the claim that substitution happens whenever a
cached-input price exists after override resolution. -/
theorem C1_counterexample :
    (calculate_single_call [("m", C1price)] "m" 1000000 0 true
      [("input_cached_per_million", (1 : ℚ))]).1 = 10
    ∧ (calculate_single_call [("m", C1price)] "m" 1000000 0 true
      [("input_cached_per_million", (1 : ℚ))]).1 ≠ 1 := by
  constructor <;> (simp [calculate_single_call, alookup, C1price]; try norm_num)

/-- Claim C1 (amended): for a charged model present in the price table,
with `use_cached_input` true the cached-input price is substituted for
the input price exactly when the table entry itself carries a
cached-input price; when it is substituted, the per-field
`price_overrides` entry for `input_cached_per_million` takes precedence
over the table value, and when the table entry has none the plain
(possibly overridden) input price is used — a cached-input price
supplied only via `price_overrides` is never substituted. -/
theorem C1_cached_substitution (prices : Prices) (m : String) (pr : ModelPrice)
    (it ot : Int) (ov : List (String × ℚ)) (hm : alookup prices m = some pr) :
    (calculate_single_call prices m it ot true ov).1 =
      ((it : ℚ) / 1000000) *
        (match pr.input_cached_per_million with
         | some c => (alookup ov "input_cached_per_million").getD c
         | none => (alookup ov "input_per_million").getD pr.input_per_million)
      + ((ot : ℚ) / 1000000) *
        ((alookup ov "output_per_million").getD pr.output_per_million) := by
  cases hc : pr.input_cached_per_million <;> simp [calculate_single_call, hm, hc]

/-- Witness for `C1_cached_substitution` at a concrete input. -/
theorem C1_cached_substitution_witness :
    (calculate_single_call [("m", C1price)] "m" 2000000 1000000 true
      [("output_per_million", (3 : ℚ))]).1 = 23 := by
  rw [C1_cached_substitution [("m", C1price)] "m" C1price 2000000 1000000
    [("output_per_million", (3 : ℚ))] (by simp [alookup])]
  simp [C1price, alookup]
  norm_num

/-! ### Claim C2 -/

/-- Claim C2 counterexample: with `fixed_input_tokens` unset, the
`from_prompt` strategy resolves to 150 input tokens while the `fixed`
strategy resolves to 0, so the two strategies are not treated
identically and `from_prompt` does not default to 0. -/
theorem C2_counterexample :
    calculate_input_tokens TokenStrategy.from_prompt none none none = .ok 150
    ∧ calculate_input_tokens TokenStrategy.fixed none none none = .ok 0
    ∧ (150 : Int) ≠ 0 := by
  refine ⟨rfl, rfl, by decide⟩

/-- A flow step with its input-token strategy replaced, all other
fields unchanged. -/
def setStrategy (st : FlowStep) (strat : TokenStrategy) : FlowStep :=
  { st with input_tokens_strategy := strat }

/-- The scenario `s` with its group list replaced by
`preG ++ [g with flow_steps := preS ++ [setStrategy st strat] ++ postS] ++ postG`:
two instantiations of `strat` give two scenarios that differ only in
that one step's strategy. -/
def withStepStrategy (s : Scenario) (preG postG : List IntentGroup) (g : IntentGroup)
    (preS postS : List FlowStep) (st : FlowStep) (strat : TokenStrategy) : Scenario :=
  { s with intent_groups :=
      preG ++ ({ g with flow_steps := preS ++ setStrategy st strat :: postS }) :: postG }

theorem stepsGo_append (p : Prices) (models : List String) (tp runs : Int)
    (ov : Overrides) :
    ∀ (l1 l2 : List FlowStep) (st : StepState),
      stepsGo p models tp runs ov (l1 ++ l2) st
        = match stepsGo p models tp runs ov l1 st with
          | .error e => .error e
          | .ok st2 => stepsGo p models tp runs ov l2 st2 := by
  intro l1
  induction l1 with
  | nil =>
    intro l2 st
    simp [stepsGo]
  | cons s rest ih =>
    intro l2 st
    rw [List.cons_append]
    cases hf : stepFold p models tp runs ov st s with
    | error e => simp [stepsGo, hf]
    | ok st2 =>
      simp only [stepsGo, hf]
      exact ih l2 st2

theorem groupsGo_append (p : Prices) (ov : Overrides) (models : List String) (d : Int) :
    ∀ (l1 l2 : List IntentGroup) (acc : RawResult),
      groupsGo p ov models d (l1 ++ l2) acc
        = match groupsGo p ov models d l1 acc with
          | .error e => .error e
          | .ok acc2 => groupsGo p ov models d l2 acc2 := by
  intro l1
  induction l1 with
  | nil =>
    intro l2 acc
    simp [groupsGo]
  | cons g rest ih =>
    intro l2 acc
    rw [List.cons_append]
    cases hf : groupFold p ov models d acc g with
    | error e => simp [groupsGo, hf]
    | ok acc2 =>
      simp only [groupsGo, hf]
      exact ih l2 acc2

theorem flow_step_strategy_congr (p : Prices) (models : List String) (tp runs : Int)
    (prev : Option Int) (ov : Overrides) (st : FlowStep) (fx : Int)
    (hfx : st.fixed_input_tokens = some fx) (hfx0 : fx ≠ 0) :
    calculate_flow_step p (setStrategy st TokenStrategy.from_prompt) models tp runs prev ov
      = calculate_flow_step p (setStrategy st TokenStrategy.fixed) models tp runs prev ov := by
  obtain ⟨nm, um, strat, fxf, pp, eot, rpp, uc⟩ := st
  simp only [FlowStep.fixed_input_tokens] at hfx
  subst hfx
  have hcit : calculate_input_tokens TokenStrategy.from_prompt (some fx) pp prev
      = calculate_input_tokens TokenStrategy.fixed (some fx) pp prev := by
    simp [calculate_input_tokens, orDefault, hfx0]
  unfold calculate_flow_step
  dsimp only [setStrategy]
  rw [hcit]
  rfl

theorem stepFold_strategy_congr (p : Prices) (models : List String) (tp runs : Int)
    (ov : Overrides) (stS : StepState) (st : FlowStep) (fx : Int)
    (hfx : st.fixed_input_tokens = some fx) (hfx0 : fx ≠ 0) :
    stepFold p models tp runs ov stS (setStrategy st TokenStrategy.from_prompt)
      = stepFold p models tp runs ov stS (setStrategy st TokenStrategy.fixed) := by
  unfold stepFold
  rw [flow_step_strategy_congr p models tp runs stS.prev ov st fx hfx hfx0]
  rfl

theorem with_runs_strategy_congr (p : Prices) (models : List String) (ov : Overrides)
    (runs : Int) (g : IntentGroup) (preS postS : List FlowStep) (st : FlowStep)
    (fx : Int) (hfx : st.fixed_input_tokens = some fx) (hfx0 : fx ≠ 0) :
    calculate_intent_group_with_runs p
        { g with flow_steps := preS ++ setStrategy st TokenStrategy.from_prompt :: postS }
        models ov runs
      = calculate_intent_group_with_runs p
        { g with flow_steps := preS ++ setStrategy st TokenStrategy.fixed :: postS }
        models ov runs := by
  have htail : ∀ stMid : StepState,
      stepsGo p models (g.intents_count * g.variants_per_intent) runs ov
          (setStrategy st TokenStrategy.from_prompt :: postS) stMid
        = stepsGo p models (g.intents_count * g.variants_per_intent) runs ov
          (setStrategy st TokenStrategy.fixed :: postS) stMid := by
    intro stMid
    simp only [stepsGo]
    rw [stepFold_strategy_congr p models (g.intents_count * g.variants_per_intent)
      runs ov stMid st fx hfx hfx0]
  have hmap : (preS ++ setStrategy st TokenStrategy.from_prompt :: postS).map
        (fun s => (models.length : Int) * (g.intents_count * g.variants_per_intent)
          * runs * s.runs_per_prompt)
      = (preS ++ setStrategy st TokenStrategy.fixed :: postS).map
        (fun s => (models.length : Int) * (g.intents_count * g.variants_per_intent)
          * runs * s.runs_per_prompt) := by
    simp only [List.map_append, List.map_cons]
    rfl
  unfold calculate_intent_group_with_runs
  dsimp only
  rw [stepsGo_append, stepsGo_append]
  cases hmid : stepsGo p models (g.intents_count * g.variants_per_intent) runs ov preS
      { total_cost := 0,
        by_model := models.foldl (fun dm m => dictSet dm m 0) [],
        by_step := [], prev := none, warnings := [] } with
  | error e => rfl
  | ok stMid =>
    show (match stepsGo p models (g.intents_count * g.variants_per_intent) runs ov
        (setStrategy st TokenStrategy.from_prompt :: postS) stMid with
      | Except.error e => (Except.error e : Except ConfigError (ℚ × GroupDetails))
      | Except.ok st' => Except.ok (st'.total_cost,
          { calls := ((preS ++ setStrategy st TokenStrategy.from_prompt :: postS).map
              (fun s : FlowStep =>
                (models.length : Int) * (g.intents_count * g.variants_per_intent)
                * runs * s.runs_per_prompt)).sum,
            input_tokens := 0, output_tokens := 0,
            by_model := st'.by_model, by_step := st'.by_step,
            warnings := st'.warnings })) = _
    rw [htail stMid, hmap]

theorem group_strategy_congr (p : Prices) (models : List String) (d : Int)
    (ov : Overrides) (g : IntentGroup) (preS postS : List FlowStep) (st : FlowStep)
    (fx : Int) (hfx : st.fixed_input_tokens = some fx) (hfx0 : fx ≠ 0) :
    calculate_intent_group p
        { g with flow_steps := preS ++ setStrategy st TokenStrategy.from_prompt :: postS }
        models d ov
      = calculate_intent_group p
        { g with flow_steps := preS ++ setStrategy st TokenStrategy.fixed :: postS }
        models d ov := by
  unfold calculate_intent_group
  dsimp only
  cases hr : get_runs_per_month g.frequency d g.custom_runs_per_month with
  | error e => rfl
  | ok runs =>
    exact with_runs_strategy_congr p models ov runs g preS postS st fx hfx hfx0

theorem groupFold_strategy_congr (p : Prices) (ov : Overrides) (models : List String)
    (d : Int) (acc : RawResult) (g : IntentGroup) (preS postS : List FlowStep)
    (st : FlowStep) (fx : Int) (hfx : st.fixed_input_tokens = some fx) (hfx0 : fx ≠ 0) :
    groupFold p ov models d acc
        { g with flow_steps := preS ++ setStrategy st TokenStrategy.from_prompt :: postS }
      = groupFold p ov models d acc
        { g with flow_steps := preS ++ setStrategy st TokenStrategy.fixed :: postS } := by
  unfold groupFold
  rw [group_strategy_congr p models d ov g preS postS st fx hfx hfx0]

theorem calcRaw_strategy_congr (p : Prices) (s : Scenario)
    (preG postG : List IntentGroup) (g : IntentGroup) (preS postS : List FlowStep)
    (st : FlowStep) (fx : Int) (hfx : st.fixed_input_tokens = some fx) (hfx0 : fx ≠ 0) :
    calculate_scenario_raw p (withStepStrategy s preG postG g preS postS st
        TokenStrategy.from_prompt)
      = calculate_scenario_raw p (withStepStrategy s preG postG g preS postS st
        TokenStrategy.fixed) := by
  unfold calculate_scenario_raw
  dsimp only [withStepStrategy]
  rw [groupsGo_append, groupsGo_append]
  cases hpre : groupsGo p s.price_overrides s.models s.days_per_month preG
      { total_cost := 0, total_calls := 0,
        total_input_tokens := 0, total_output_tokens := 0,
        by_model := s.models.foldl (fun dm m => dictSet dm m 0) [],
        by_intent_group := [], by_step := [], warnings := [] } with
  | error e => rfl
  | ok acc2 =>
    show groupsGo p s.price_overrides s.models s.days_per_month
        (({ g with flow_steps := preS ++ setStrategy st TokenStrategy.from_prompt :: postS })
          :: postG) acc2 = _
    simp only [groupsGo]
    rw [groupFold_strategy_congr p s.price_overrides s.models s.days_per_month acc2
      g preS postS st fx hfx hfx0]

/-- Claim C2 (amended): resolving input tokens under `from_prompt`
yields `fixed_input_tokens or 150` while `fixed` yields
`fixed_input_tokens or 0` (Python's falsy `or`: both `None` and `0`
fall back to the default, so an unset or zero fixed value resolves to
150 versus 0); the two strategies coincide exactly when
`fixed_input_tokens` is set and nonzero, and for such a step
`calculate_scenario` returns equal results on two scenarios that
differ only in that step's strategy being `from_prompt` versus
`fixed`. -/
theorem C2_from_prompt_vs_fixed :
    (∀ (fx : Option Int) (pct : Option ℚ) (prev : Option Int),
      calculate_input_tokens TokenStrategy.from_prompt fx pct prev
          = .ok (orDefault fx 150)
      ∧ calculate_input_tokens TokenStrategy.fixed fx pct prev
          = .ok (orDefault fx 0))
    ∧ (∀ (fx : Int) (pct : Option ℚ) (prev : Option Int), fx ≠ 0 →
      calculate_input_tokens TokenStrategy.from_prompt (some fx) pct prev
        = calculate_input_tokens TokenStrategy.fixed (some fx) pct prev)
    ∧ (∀ (p : Prices) (s : Scenario) (preG postG : List IntentGroup) (g : IntentGroup)
        (preS postS : List FlowStep) (st : FlowStep) (fx : Int),
      st.fixed_input_tokens = some fx → fx ≠ 0 →
      calculate_scenario p (withStepStrategy s preG postG g preS postS st
          TokenStrategy.from_prompt)
        = calculate_scenario p (withStepStrategy s preG postG g preS postS st
          TokenStrategy.fixed)) := by
  refine ⟨?_, ?_, ?_⟩
  · intro fx pct prev
    exact ⟨rfl, rfl⟩
  · intro fx pct prev hfx
    simp [calculate_input_tokens, orDefault, hfx]
  · intro p s preG postG g preS postS st fx hfx hfx0
    unfold calculate_scenario
    rw [calcRaw_strategy_congr p s preG postG g preS postS st fx hfx hfx0]

/-- A step with a nonzero fixed input-token count, for the C2 witness. -/
def W2step : FlowStep :=
  { name := "s", uses_model := "current", input_tokens_strategy := .fixed,
    fixed_input_tokens := some 100, expected_output_tokens := 50 }

/-- Carrier group for the C2 witness (its step list gets replaced). -/
def W2group : IntentGroup :=
  { name := "g", intents_count := 1, variants_per_intent := 1,
    frequency := .daily, flow_steps := [] }

/-- Carrier scenario for the C2 witness. -/
def W2scenario : Scenario :=
  { id := "s", name := "S", models := ["m"], intent_groups := [],
    days_per_month := 30 }

/-- Priced model for the C2 witness, so input tokens carry real cost. -/
def W2price : ModelPrice :=
  { id := "m", vendor := "v", name := "M", input_per_million := 1,
    output_per_million := 1, input_cached_per_million := none, updated_at := 0 }

/-- Witness for `C2_from_prompt_vs_fixed`: a whole-scenario equality at
a concrete input with `fixed_input_tokens = 100`. -/
theorem C2_from_prompt_vs_fixed_witness :
    calculate_scenario [("m", W2price)]
        (withStepStrategy W2scenario [] [] W2group [] [] W2step TokenStrategy.from_prompt)
      = calculate_scenario [("m", W2price)]
        (withStepStrategy W2scenario [] [] W2group [] [] W2step TokenStrategy.fixed) :=
  C2_from_prompt_vs_fixed.2.2 [("m", W2price)] W2scenario [] [] W2group [] [] W2step
    100 rfl (by decide)

/-! ### Claim C9 -/

theorem group_calls_eq (p : Prices) (g : IntentGroup) (models : List String)
    (d : Int) (ov : Overrides) (runs : Int) (gc : ℚ) (det : GroupDetails)
    (hr : get_runs_per_month g.frequency d g.custom_runs_per_month = .ok runs)
    (h : calculate_intent_group p g models d ov = .ok (gc, det)) :
    det.calls = (g.flow_steps.map
      (fun st => (models.length : Int) * (g.intents_count * g.variants_per_intent)
        * runs * st.runs_per_prompt)).sum := by
  simp only [calculate_intent_group, hr] at h
  cases hs : stepsGo p models (g.intents_count * g.variants_per_intent) runs ov g.flow_steps
      { total_cost := 0,
        by_model := models.foldl (fun dm m => dictSet dm m 0) [],
        by_step := [], prev := none, warnings := [] } with
  | error e => simp [calculate_intent_group_with_runs, hs] at h
  | ok st =>
    simp only [calculate_intent_group_with_runs, hs, Except.ok.injEq, Prod.mk.injEq] at h
    rw [← h.2]

/-- Claim C9: the monthly call count reported for an intent group equals
the sum over its flow steps of
`len(models) * totalPrompts * runsPerMonth * step.runs_per_prompt`,
always with the group's base `totalPrompts = intents_count *
variants_per_intent` (full fan-out, also for steps that name one
specific model — the step-local prompt multiplication does not enter
the call count). -/
theorem C9_group_call_count (p : Prices) (g : IntentGroup) (models : List String)
    (d : Int) (ov : Overrides) (runs : Int) (gc : ℚ) (det : GroupDetails)
    (hr : get_runs_per_month g.frequency d g.custom_runs_per_month = .ok runs)
    (h : calculate_intent_group p g models d ov = .ok (gc, det)) :
    det.calls = (g.flow_steps.map
      (fun st => (models.length : Int) * (g.intents_count * g.variants_per_intent)
        * runs * st.runs_per_prompt)).sum :=
  group_calls_eq p g models d ov runs gc det hr h

/-- A flow step used by concrete witnesses. -/
def W9step : FlowStep :=
  { name := "s1", uses_model := "current", input_tokens_strategy := .fixed,
    fixed_input_tokens := some 10, expected_output_tokens := 20, runs_per_prompt := 2 }

/-- An intent group used by concrete witnesses. -/
def W9group : IntentGroup :=
  { name := "g", intents_count := 2, variants_per_intent := 3,
    frequency := .daily, flow_steps := [W9step] }

/-- Witness for `C9_group_call_count`: 2 models × 6 prompts × 5 runs × 2
repetitions = 120 calls. -/
theorem C9_group_call_count_witness :
    okCalls (calculate_intent_group [] W9group ["a", "b"] 5 []) = some 120 := by
  have h : calculate_intent_group [] W9group ["a", "b"] 5 [] = .ok (0,
      { calls := 120, input_tokens := 0, output_tokens := 0,
        by_model := [("a", 0), ("b", 0)], by_step := [("s1", 0)],
        warnings := [warnMsg "a", warnMsg "b"] }) := by
    simp [calculate_intent_group, get_runs_per_month, W9group, W9step,
      calculate_intent_group_with_runs, stepsGo, stepFold, calculate_flow_step,
      calculate_input_tokens, orDefault, modelsForStep, effPrompts, stepModelCost,
      stepModelWarn, calculate_single_call, alookup, dictSet, dictAdd, stepDict, warnMsg]
  have hc := C9_group_call_count [] W9group ["a", "b"] 5 [] 5 0
    { calls := 120, input_tokens := 0, output_tokens := 0,
      by_model := [("a", 0), ("b", 0)], by_step := [("s1", 0)],
      warnings := [warnMsg "a", warnMsg "b"] } rfl h
  simp [okCalls, h]

/-! ### Claims C3 and C4 -/

/-- Sum of the emitted `by_step` costs of a successful calculation. -/
def resultByStepSum (e : Except ConfigError (SimulationResult × List String)) : ℚ :=
  match e with
  | .ok r => (r.1.by_step.map Prod.snd).sum
  | .error _ => 0

/-- A price entry charging only for output, 1 dollar per million. -/
def outPrice : ModelPrice :=
  { id := "m", vendor := "v", name := "M", input_per_million := 0,
    output_per_million := 1, input_cached_per_million := none, updated_at := 0 }

/-- A group of 1000 prompts run once a month through one 4-output-token
step: its monthly cost is 0.004 dollars, which is not a 2-decimal
quantity. -/
def C3group : IntentGroup :=
  { name := "g", intents_count := 10, variants_per_intent := 100,
    frequency := .custom, custom_runs_per_month := some 1,
    flow_steps :=
      [{ name := "a", uses_model := "current", input_tokens_strategy := .fixed,
         expected_output_tokens := 4 }] }

/-- Scenario exhibiting an unrounded `by_intent_group` cost. -/
def C3scenario : Scenario :=
  { id := "s", name := "S", models := ["m"], intent_groups := [C3group],
    days_per_month := 30 }

/-- Claim C3 counterexample: the emitted `by_intent_group[*].cost_usd`
is 1/250 = 0.004 dollars — the full-precision group cost, not a value
rounded to 2 decimal places (its 2-decimal rounding is 0), so not every
emitted currency figure in the SimulationResult is rounded. -/
theorem C3_counterexample :
    resultGroupCosts (calculate_scenario [("m", outPrice)] C3scenario) = [1/250]
    ∧ round2 (1/250) ≠ (1/250 : ℚ) := by
  constructor
  · simp [resultGroupCosts, calculate_scenario, calculate_scenario_raw, groupsGo,
      groupFold, calculate_intent_group, get_runs_per_month, C3scenario, C3group,
      outPrice, calculate_intent_group_with_runs, stepsGo, stepFold,
      calculate_flow_step, calculate_input_tokens, orDefault, modelsForStep,
      effPrompts, stepModelCost, stepModelWarn, calculate_single_call, alookup,
      dictSet, dictAdd, stepDict, warnMsg, get_price_metadata, isoformat]
    norm_num
  · norm_num [round2, roundHalfEven]

/-- Claim C3 (amended): `total_monthly_cost_usd`, the `by_model[*].cost_usd`
and the `by_step[*].cost_usd` are rounded to 2 decimal places at the
point of output only, while internal accumulation is full precision
(the total equals the exact sum of the unrounded per-group costs); the
`by_intent_group[*].cost_usd` figures, however, are emitted at full
precision, not rounded. -/
theorem C3_rounded_at_output (p : Prices) (s : Scenario) (raw : RawResult)
    (h : calculate_scenario_raw p s = .ok raw) :
    calculate_scenario p s = .ok (
      { total_monthly_cost_usd := round2 raw.total_cost,
        by_model := raw.by_model.map (fun pp => (pp.1, round2 pp.2)),
        by_intent_group := raw.by_intent_group,
        by_step := raw.by_step.map (fun pp => (pp.1, round2 pp.2)),
        total_calls_per_month := raw.total_calls,
        total_input_tokens_per_month := raw.total_input_tokens,
        total_output_tokens_per_month := raw.total_output_tokens,
        meta := get_price_metadata p }, raw.warnings)
    ∧ raw.total_cost = (raw.by_intent_group.map IntentGroupEntry.cost_usd).sum := by
  constructor
  · simp [calculate_scenario, h]
  · exact (raw_bystep_total p s raw h).2

/-- Witness for `C3_rounded_at_output` on a concrete scenario. -/
theorem C3_rounded_at_output_witness :
    resultTotal (calculate_scenario [("m", outPrice)] C3scenario) = some 0 := by
  have hraw : ∃ raw, calculate_scenario_raw [("m", outPrice)] C3scenario = .ok raw := by
    cases hr : calculate_scenario_raw [("m", outPrice)] C3scenario with
    | error e =>
      have := calcRaw_isOk [("m", outPrice)] C3scenario
      rw [hr] at this
      simp [exceptIsOk, C3scenario, C3group, groupConfigError, stepNeedsPrev,
        stepPercentUnset] at this
    | ok raw => exact ⟨raw, rfl⟩
  obtain ⟨raw, hr⟩ := hraw
  have h := (C3_rounded_at_output [("m", outPrice)] C3scenario raw hr).1
  have htot : raw.total_cost = 1/250 := by
    have hr2 := hr
    simp [calculate_scenario_raw, groupsGo, groupFold, calculate_intent_group,
      get_runs_per_month, C3scenario, C3group, outPrice,
      calculate_intent_group_with_runs, stepsGo, stepFold, calculate_flow_step,
      calculate_input_tokens, orDefault, modelsForStep, effPrompts,
      stepModelCost, stepModelWarn, calculate_single_call, alookup, dictSet,
      dictAdd, stepDict, warnMsg] at hr2
    rw [← hr2]
    norm_num
  rw [h]
  simp only [resultTotal]
  rw [htot]
  norm_num [round2, roundHalfEven]

/-- A group like `C3group` but with two identical steps `a`, `b`; the
total is 0.008 which rounds up to 0.01, while each per-step figure
0.004 rounds down to 0. -/
def C4group : IntentGroup :=
  { name := "g", intents_count := 10, variants_per_intent := 100,
    frequency := .custom, custom_runs_per_month := some 1,
    flow_steps :=
      [{ name := "a", uses_model := "current", input_tokens_strategy := .fixed,
         expected_output_tokens := 4 },
       { name := "b", uses_model := "current", input_tokens_strategy := .fixed,
         expected_output_tokens := 4 }] }

/-- Scenario with total 0.008: rounding total and per-step figures
disagree. -/
def C4scenario : Scenario :=
  { id := "s", name := "S", models := ["m"], intent_groups := [C4group],
    days_per_month := 30 }

/-- Claim C4 counterexample: the emitted total is round(0.008, 2) = 0.01
while the emitted `by_step` costs are round(0.004, 2) = 0 each, so
`total_monthly_cost_usd` (0.01) differs from the sum of
`by_step[*].cost_usd` (0). -/
theorem C4_counterexample :
    resultTotal (calculate_scenario [("m", outPrice)] C4scenario) = some (1/100)
    ∧ resultByStepSum (calculate_scenario [("m", outPrice)] C4scenario) = 0
    ∧ (1/100 : ℚ) ≠ 0 := by
  refine ⟨?_, ?_, by norm_num⟩ <;>
    (simp [resultTotal, resultByStepSum, calculate_scenario, calculate_scenario_raw,
      groupsGo, groupFold, calculate_intent_group, get_runs_per_month, C4scenario,
      C4group, outPrice, calculate_intent_group_with_runs, stepsGo, stepFold,
      calculate_flow_step, calculate_input_tokens, orDefault, modelsForStep,
      effPrompts, stepModelCost, stepModelWarn, calculate_single_call, alookup,
      dictSet, dictAdd, stepDict, warnMsg, get_price_metadata, isoformat, round2,
      roundHalfEven];
     norm_num [Int.fract])

/-- Claim C4 (amended): the emitted total equals the 2-decimal rounding
of the exact (unrounded) sum of the per-step costs; since the
`by_step[*].cost_usd` figures are themselves rounded before being
summed, the total agrees with their sum only up to rounding, not
exactly. -/
theorem C4_total_vs_by_step (p : Prices) (s : Scenario) (raw : RawResult)
    (r : SimulationResult) (w : List String)
    (hr : calculate_scenario_raw p s = .ok raw)
    (h : calculate_scenario p s = .ok (r, w)) :
    r.total_monthly_cost_usd = round2 ((raw.by_step.map Prod.snd).sum) := by
  simp only [calculate_scenario, hr, Except.ok.injEq, Prod.mk.injEq] at h
  have hsum := (raw_bystep_total p s raw hr).1
  simp only [valsSum] at hsum
  rw [← h.1, hsum]

/-- Witness for `C4_total_vs_by_step` on a concrete scenario. -/
theorem C4_total_vs_by_step_witness :
    resultTotal (calculate_scenario [("m", outPrice)] C4scenario) =
      some (round2 (1/125)) := by
  have hraw : ∃ raw, calculate_scenario_raw [("m", outPrice)] C4scenario = .ok raw := by
    cases hr : calculate_scenario_raw [("m", outPrice)] C4scenario with
    | error e =>
      have := calcRaw_isOk [("m", outPrice)] C4scenario
      rw [hr] at this
      simp [exceptIsOk, C4scenario, C4group, groupConfigError, stepNeedsPrev,
        stepPercentUnset] at this
    | ok raw => exact ⟨raw, rfl⟩
  obtain ⟨raw, hr⟩ := hraw
  have htotraw : raw.total_cost = 1/125 := by
    have hr2 := hr
    simp [calculate_scenario_raw, groupsGo, groupFold, calculate_intent_group,
      get_runs_per_month, C4scenario, C4group, outPrice,
      calculate_intent_group_with_runs, stepsGo, stepFold, calculate_flow_step,
      calculate_input_tokens, orDefault, modelsForStep, effPrompts,
      stepModelCost, stepModelWarn, calculate_single_call, alookup, dictSet,
      dictAdd, stepDict, warnMsg] at hr2
    rw [← hr2]
    norm_num
  cases hc : calculate_scenario [("m", outPrice)] C4scenario with
  | error e => simp [calculate_scenario, hr] at hc
  | ok rw_pair =>
    have h4 := C4_total_vs_by_step [("m", outPrice)] C4scenario raw rw_pair.1 rw_pair.2
      hr (by rw [hc])
    have hsum : (raw.by_step.map Prod.snd).sum = 1/125 := by
      have h1 := (raw_bystep_total [("m", outPrice)] C4scenario raw hr).1
      simp only [valsSum] at h1
      rw [h1, htotraw]
    simp only [resultTotal]
    rw [h4, hsum]

/-! ### Claim C6 -/

theorem isOk_false_iff_error {ε α : Type} (x : Except ε α) :
    exceptIsOk x = false ↔ ∃ e, x = .error e := by
  cases x <;> simp [exceptIsOk]

theorem groupConfigError_iff (g : IntentGroup) :
    groupConfigError g = true ↔
      ((g.frequency = Frequency.custom ∧ g.custom_runs_per_month = none)
       ∨ (∃ s0 rest, g.flow_steps = s0 :: rest
           ∧ (s0.input_tokens_strategy = TokenStrategy.from_previous_output
              ∨ s0.input_tokens_strategy = TokenStrategy.percent_of_previous_output))
       ∨ (∃ st ∈ g.flow_steps,
           st.input_tokens_strategy = TokenStrategy.percent_of_previous_output
           ∧ st.percent_of_previous = none)) := by
  cases hfs : g.flow_steps with
  | nil =>
    simp [groupConfigError, hfs, stepNeedsPrev, stepPercentUnset]
  | cons s0 rest =>
    simp only [groupConfigError, hfs, stepNeedsPrev, stepPercentUnset,
      List.any_eq_true, Bool.or_eq_true, Bool.and_eq_true, decide_eq_true_eq,
      List.cons.injEq, List.mem_cons]
    constructor
    · intro hx
      rcases hx with (h1 | h2) | h3
      · exact Or.inl h1
      · exact Or.inr (Or.inl ⟨s0, rest, ⟨rfl, rfl⟩, h2⟩)
      · rcases h3 with ⟨st, hst | hst, hp⟩
        · exact Or.inr (Or.inr ⟨st, Or.inl hst, hp⟩)
        · exact Or.inr (Or.inr ⟨st, Or.inr hst, hp⟩)
    · intro hx
      rcases hx with h1 | ⟨a, b, ⟨ha, hb⟩, h2⟩ | ⟨st, hst, hp⟩
      · exact Or.inl (Or.inl h1)
      · rw [ha]
        exact Or.inl (Or.inr h2)
      · exact Or.inr ⟨st, hst, hp⟩

/-- Claim C6: on a well-typed scenario and price table,
`calculate_scenario` raises (returns a configuration error, hence no
partial result) exactly when some group has custom frequency with
`custom_runs_per_month` unset, or some group's first flow step uses the
`from_previous_output` or `percent_of_previous_output` strategy, or
some `percent_of_previous_output` step has `percent_of_previous` unset;
no other input makes it raise. -/
theorem C6_config_error_iff (p : Prices) (s : Scenario) :
    (∃ e, calculate_scenario p s = .error e) ↔
      ∃ g ∈ s.intent_groups,
        ((g.frequency = Frequency.custom ∧ g.custom_runs_per_month = none)
         ∨ (∃ s0 rest, g.flow_steps = s0 :: rest
             ∧ (s0.input_tokens_strategy = TokenStrategy.from_previous_output
                ∨ s0.input_tokens_strategy = TokenStrategy.percent_of_previous_output))
         ∨ (∃ st ∈ g.flow_steps,
             st.input_tokens_strategy = TokenStrategy.percent_of_previous_output
             ∧ st.percent_of_previous = none)) := by
  rw [← isOk_false_iff_error, calc_isOk]
  constructor
  · intro hfalse
    have hnot : ¬ s.intent_groups.all (fun g => !groupConfigError g) = true := by
      simp [hfalse]
    rw [List.all_eq_true] at hnot
    push_neg at hnot
    obtain ⟨g, hg, hgce⟩ := hnot
    refine ⟨g, hg, ?_⟩
    rw [← groupConfigError_iff g]
    simpa using hgce
  · intro ⟨g, hg, hprop⟩
    have hgce : groupConfigError g = true := (groupConfigError_iff g).mpr hprop
    cases hall : s.intent_groups.all (fun g => !groupConfigError g) with
    | false => rfl
    | true =>
      exfalso
      rw [List.all_eq_true] at hall
      have := hall g hg
      rw [hgce] at this
      simp at this

/-! ### Claim C7 -/

/-- Claim C7: a model identifier absent from the price table contributes
zero cost (each single call for it costs 0 and emits the non-fatal
warning string), never causes a raise (whether the calculation raises
does not depend on the price table at all), and in any successful
result every `by_model` entry for that identifier is 0 — with the
identifier still listed (at cost 0) when it is one of
`scenario.models`. -/
theorem C7_unknown_model :
    (∀ (p : Prices) (m : String) (it ot : Int) (uc : Bool) (ov : List (String × ℚ)),
      alookup p m = none →
      calculate_single_call p m it ot uc ov = (0, [warnMsg m]))
    ∧ (∀ (p1 p2 : Prices) (s : Scenario),
      exceptIsOk (calculate_scenario p1 s) = exceptIsOk (calculate_scenario p2 s))
    ∧ (∀ (p : Prices) (s : Scenario) (m : String) (r : SimulationResult)
        (w : List String),
      alookup p m = none → calculate_scenario p s = .ok (r, w) →
      (∀ c : ℚ, (m, c) ∈ r.by_model → c = 0)
      ∧ (m ∈ s.models → (m, (0:ℚ)) ∈ r.by_model)) := by
  refine ⟨?_, ?_, ?_⟩
  · intro p m it ot uc ov h
    exact singlecall_none p m it ot uc ov h
  · intro p1 p2 s
    rw [calc_isOk, calc_isOk]
  · intro p s m r w hm h
    cases hr : calculate_scenario_raw p s with
    | error e => simp [calculate_scenario, hr] at h
    | ok raw =>
      simp only [calculate_scenario, hr, Except.ok.injEq, Prod.mk.injEq] at h
      have hzero := raw_zeroAt_by_model p s m hm raw hr
      constructor
      · intro c hc
        rw [← h.1] at hc
        simp only [List.mem_map] at hc
        obtain ⟨pp, hpp, hpc⟩ := hc
        have hm1 : pp.1 = m := congrArg Prod.fst hpc
        have hc2 : round2 pp.2 = c := congrArg Prod.snd hpc
        have hz : pp.2 = 0 := hzero pp.2 (by rw [← hm1]; exact hpp)
        rw [← hc2, hz, round2_zero]
      · intro hmem
        have hs := raw_someAt_by_model p s m hmem raw hr
        cases hlk : alookup raw.by_model m with
        | none => rw [hlk] at hs; simp at hs
        | some c0 =>
          have hmem2 := alookup_mem m c0 raw.by_model hlk
          have hz : c0 = 0 := hzero c0 hmem2
          rw [← h.1]
          refine List.mem_map.mpr ⟨(m, c0), hmem2, ?_⟩
          rw [hz, round2_zero]

/-- Witness for `C7_unknown_model` at a concrete input. -/
theorem C7_unknown_model_witness :
    calculate_single_call [] "m" 1 1 false [] = (0, [warnMsg "m"]) :=
  C7_unknown_model.1 [] "m" 1 1 false [] rfl

/-! ### Claim C10 -/

/-- A group with custom frequency but no explicit run count. -/
def C10badGroup : IntentGroup :=
  { name := "g", intents_count := 1, variants_per_intent := 1,
    frequency := .custom, flow_steps := [] }

/-- A scenario that raises a configuration error. -/
def C10badScenario : Scenario :=
  { id := "s", name := "S", models := [], intent_groups := [C10badGroup],
    days_per_month := 30 }

/-- Claim C10 counterexample: with an empty price mapping,
`calculate_scenario` still raises on a scenario whose group has custom
frequency and no `custom_runs_per_month`, so it is not true that for
every scenario an empty price table yields a result. -/
theorem C10_counterexample :
    exceptIsOk (calculate_scenario [] C10badScenario) = false := rfl

/-- Claim C10 (amended): for every scenario free of configuration errors
(i.e. on which the calculation succeeds), a calculator with an empty
price mapping returns a result in which every cost figure — the total,
each `by_model`, `by_intent_group` and `by_step` cost — is 0, and whose
meta is exactly `{"price_source_updated_at": "unknown"}`, with no
`models_count` key and no ISO-8601 timestamp. -/
theorem C10_empty_prices (s : Scenario) (r : SimulationResult) (w : List String)
    (h : calculate_scenario [] s = .ok (r, w)) :
    r.total_monthly_cost_usd = 0
    ∧ (∀ pp ∈ r.by_model, pp.2 = (0:ℚ))
    ∧ (∀ e ∈ r.by_intent_group, e.cost_usd = 0)
    ∧ (∀ pp ∈ r.by_step, pp.2 = (0:ℚ))
    ∧ r.meta = [("price_source_updated_at", "unknown")] := by
  cases hr : calculate_scenario_raw [] s with
  | error e => simp [calculate_scenario, hr] at h
  | ok raw =>
    simp only [calculate_scenario, hr, Except.ok.injEq, Prod.mk.injEq] at h
    obtain ⟨htot, hbm, hbs, hbg⟩ := raw_allZero s raw hr
    refine ⟨?_, ?_, ?_, ?_, ?_⟩
    · rw [← h.1]
      simp only []
      rw [htot, round2_zero]
    · intro pp hpp
      rw [← h.1] at hpp
      simp only [List.mem_map] at hpp
      obtain ⟨qq, hqq, hq2⟩ := hpp
      have : qq.2 = 0 := hbm qq hqq
      rw [← hq2]
      simp only []
      rw [this, round2_zero]
    · intro e he
      rw [← h.1] at he
      exact hbg e he
    · intro pp hpp
      rw [← h.1] at hpp
      simp only [List.mem_map] at hpp
      obtain ⟨qq, hqq, hq2⟩ := hpp
      have : qq.2 = 0 := hbs qq hqq
      rw [← hq2]
      simp only []
      rw [this, round2_zero]
    · rw [← h.1]
      rfl

/-- Witness for `C10_empty_prices` on a concrete scenario. -/
theorem C10_empty_prices_witness :
    resultTotal (calculate_scenario [] C3scenario) = some 0 := by
  cases hc : calculate_scenario [] C3scenario with
  | error e =>
    exfalso
    have hok := calc_isOk [] C3scenario
    rw [hc] at hok
    simp only [exceptIsOk] at hok
    have : C3scenario.intent_groups.all (fun g => !groupConfigError g) = true := by decide
    rw [this] at hok
    cases hok
  | ok pr =>
    have h10 := C10_empty_prices C3scenario pr.1 pr.2 (by rw [hc])
    simp only [resultTotal]
    rw [h10.1]

/-! ### Claim C5 -/

/-- Claim C5: a flow step whose model selector names one specific model
(not the `"current"` sentinel) charges only that named model, at the
single-call cost scaled by `totalPrompts * len(models)` (the step-local
prompt multiplication), by `runs_per_month` and by `runs_per_prompt`;
and inside a group every step's recorded `by_step` cost is computed
from the group's base `totalPrompts` (the multiplication does not
persist to later steps), while the group's call count also uses the
base `totalPrompts`. -/
theorem C5_specific_model_step :
    (∀ (p : Prices) (models : List String) (ov : Overrides) (tp runs : Int)
        (prev : Option Int) (step : FlowStep) (c : ℚ) (bm : List (String × ℚ))
        (ws : List String),
      step.uses_model ≠ "current" →
      calculate_flow_step p step models tp runs prev ov = .ok (c, bm, ws) →
      ∃ itoks, calculate_input_tokens step.input_tokens_strategy
          step.fixed_input_tokens step.percent_of_previous prev = .ok itoks
        ∧ bm = [(step.uses_model,
            (calculate_single_call p step.uses_model itoks step.expected_output_tokens
               step.use_cached_input ((alookup ov step.uses_model).getD [])).1
             * ((tp * (models.length : Int) : Int) : ℚ) * (runs : ℚ)
             * (step.runs_per_prompt : ℚ))]
        ∧ c = (calculate_single_call p step.uses_model itoks step.expected_output_tokens
               step.use_cached_input ((alookup ov step.uses_model).getD [])).1
             * ((tp * (models.length : Int) : Int) : ℚ) * (runs : ℚ)
             * (step.runs_per_prompt : ℚ))
    ∧ (∀ (p : Prices) (g : IntentGroup) (models : List String) (d : Int)
        (ov : Overrides) (gc : ℚ) (det : GroupDetails),
      (g.flow_steps.map FlowStep.name).Nodup →
      calculate_intent_group p g models d ov = .ok (gc, det) →
      ∃ runs l, get_runs_per_month g.frequency d g.custom_runs_per_month = .ok runs
        ∧ stepCostsList p models (g.intents_count * g.variants_per_intent) runs ov
            none g.flow_steps = .ok l
        ∧ det.by_step = l
        ∧ det.calls = (g.flow_steps.map
            (fun st => (models.length : Int) * (g.intents_count * g.variants_per_intent)
              * runs * st.runs_per_prompt)).sum) := by
  constructor
  · intro p models ov tp runs prev step c bm ws hne h
    cases hc : calculate_input_tokens step.input_tokens_strategy
        step.fixed_input_tokens step.percent_of_previous prev with
    | error e => simp [calculate_flow_step, hc] at h
    | ok itoks =>
      have hf := flow_step_eq p step models tp runs prev ov itoks hc
      rw [hf] at h
      simp only [Except.ok.injEq, Prod.mk.injEq] at h
      refine ⟨itoks, rfl, ?_, ?_⟩
      · rw [← h.2.1]
        simp [stepDict, modelsForStep, effPrompts, hne, stepModelCost, dictSet]
      · rw [← h.1]
        simp [modelsForStep, effPrompts, hne, stepModelCost]
  · intro p g models d ov gc det hnd h
    obtain ⟨runs, l, hruns, hl, hbs⟩ := group_by_step_eq p g models d ov gc det hnd h
    refine ⟨runs, l, hruns, hl, hbs, ?_⟩
    exact group_calls_eq p g models d ov runs gc det hruns h

/-- A step that names one specific model. -/
def W5step : FlowStep :=
  { name := "j", uses_model := "judge", input_tokens_strategy := .fixed,
    fixed_input_tokens := some 10, expected_output_tokens := 5 }

/-- Witness for `C5_specific_model_step` at a concrete input: with two
tested models and an unpriced judge model, the step charges only
`"judge"`. -/
theorem C5_specific_model_step_witness :
    calculate_flow_step [] W5step ["a", "b"] 7 3 none []
      = .ok (0, [("judge", 0)], [warnMsg "judge"]) := by
  have h : calculate_flow_step [] W5step ["a", "b"] 7 3 none []
      = .ok (0, [("judge", 0)], [warnMsg "judge"]) := by
    simp [calculate_flow_step, calculate_input_tokens, W5step, orDefault,
      modelsForStep, effPrompts, stepModelCost, stepModelWarn,
      calculate_single_call, alookup, dictSet, warnMsg]
  have happ := C5_specific_model_step.1 [] ["a", "b"] [] 7 3 none W5step 0
    [("judge", 0)] [warnMsg "judge"] (by decide) h
  exact h

/-! ### Claim C8 -/

/-- The scenario `s` with its group list replaced by
`pre ++ [g with frequency := f] ++ post`: replacing one group's
frequency, all else held fixed. -/
def withFreq (s : Scenario) (pre post : List IntentGroup) (g : IntentGroup)
    (f : Frequency) : Scenario :=
  { s with intent_groups := pre ++ ({ g with frequency := f }) :: post }

theorem with_runs_freq_irrel (p : Prices) (g : IntentGroup) (models : List String)
    (ov : Overrides) (runs : Int) (f : Frequency) :
    calculate_intent_group_with_runs p { g with frequency := f } models ov runs
      = calculate_intent_group_with_runs p g models ov runs := rfl

theorem rawTotal_decomp (p : Prices) (s : Scenario) (pre post : List IntentGroup)
    (g : IntentGroup) (f : Frequency) (rf : Int) (c : ℚ) (det : GroupDetails) (t : ℚ)
    (hrf : get_runs_per_month f s.days_per_month g.custom_runs_per_month = .ok rf)
    (hc : calculate_intent_group_with_runs p g s.models s.price_overrides 1 = .ok (c, det))
    (ht : rawTotal p (withFreq s pre post g f) = some t) :
    ∃ cs1 cs2, groupCosts p s.models s.days_per_month s.price_overrides pre = .ok cs1
      ∧ groupCosts p s.models s.days_per_month s.price_overrides post = .ok cs2
      ∧ t = cs1.sum + (rf : ℚ) * c + cs2.sum := by
  cases hraw : calculate_scenario_raw p (withFreq s pre post g f) with
  | error e => rw [rawTotal, hraw] at ht; cases ht
  | ok raw =>
    rw [rawTotal, hraw] at ht
    have htt : raw.total_cost = t := Option.some.inj ht
    obtain ⟨cs, hcs, hsum⟩ := groupsGo_total p s.price_overrides s.models
      s.days_per_month (pre ++ ({ g with frequency := f }) :: post) _ raw hraw
    obtain ⟨cs1, cs2', hpre, hmid, hcat⟩ := groupCosts_append p s.models
      s.days_per_month s.price_overrides pre (({ g with frequency := f }) :: post) cs hcs
    obtain ⟨det', hwr⟩ := group_with_runs_linear p g s.models s.price_overrides rf c det hc
    have hgf : calculate_intent_group p ({ g with frequency := f }) s.models
        s.days_per_month s.price_overrides = .ok ((rf : ℚ) * c, det') := by
      have hr' : get_runs_per_month ({ g with frequency := f }).frequency
          s.days_per_month ({ g with frequency := f }).custom_runs_per_month
          = .ok rf := hrf
      simp only [calculate_intent_group, hr', with_runs_freq_irrel]
      exact hwr
    cases hpost : groupCosts p s.models s.days_per_month s.price_overrides post with
    | error e => simp [groupCosts, hgf, hpost] at hmid
    | ok csPost =>
      simp only [groupCosts, hgf, hpost, Except.ok.injEq] at hmid
      refine ⟨cs1, csPost, hpre, rfl, ?_⟩
      rw [← htt, hsum, hcat, ← hmid]
      simp only [List.sum_append, List.sum_cons]
      ring

/-- Claim C8 counterexample: on a scenario whose only model is absent
from the price table every run costs 0, so the monthly totals under
hourly and 2-hourly frequency are both 0 — equal, not strictly
decreasing; the claimed strict chain fails without further
assumptions. -/
theorem C8_counterexample :
    resultTotal (calculate_scenario []
      (withFreq { id := "s", name := "S", models := ["m"], intent_groups := [],
                  days_per_month := 30 } [] [] W9group .hourly)) = some 0
    ∧ resultTotal (calculate_scenario []
      (withFreq { id := "s", name := "S", models := ["m"], intent_groups := [],
                  days_per_month := 30 } [] [] W9group .two_hourly)) = some 0 := by
  constructor <;>
    (simp [resultTotal, calculate_scenario, calculate_scenario_raw, groupsGo,
      groupFold, calculate_intent_group, get_runs_per_month, withFreq, W9group,
      W9step, calculate_intent_group_with_runs, stepsGo, stepFold,
      calculate_flow_step, calculate_input_tokens, orDefault, modelsForStep,
      effPrompts, stepModelCost, stepModelWarn, calculate_single_call, alookup,
      dictSet, dictAdd, stepDict, warnMsg, get_price_metadata, isoformat, round2,
      roundHalfEven];
     try norm_num [Int.fract])

/-- Claim C8 (amended): holding `days_per_month ≥ 1` fixed and replacing
one group's frequency, the full-precision monthly totals strictly
decrease along hourly > 2-hourly > 4-hourly > daily > weekly (runs per
month `24*d`, `12*d`, `6*d`, `d`, `d // 7`), provided the group's
per-run cost is strictly positive — without that positivity (e.g. a
zero-cost scenario) the chain collapses to equalities, and after the
2-decimal output rounding adjacent totals can also coincide. -/
theorem C8_frequency_monotonic (p : Prices) (s : Scenario)
    (pre post : List IntentGroup) (g : IntentGroup) (c : ℚ) (det : GroupDetails)
    (t1 t2 t3 t4 t5 : ℚ)
    (hd : 1 ≤ s.days_per_month)
    (hc : calculate_intent_group_with_runs p g s.models s.price_overrides 1
      = .ok (c, det))
    (hcpos : 0 < c)
    (h1 : rawTotal p (withFreq s pre post g .hourly) = some t1)
    (h2 : rawTotal p (withFreq s pre post g .two_hourly) = some t2)
    (h3 : rawTotal p (withFreq s pre post g .four_hourly) = some t3)
    (h4 : rawTotal p (withFreq s pre post g .daily) = some t4)
    (h5 : rawTotal p (withFreq s pre post g .weekly) = some t5) :
    t1 > t2 ∧ t2 > t3 ∧ t3 > t4 ∧ t4 > t5 := by
  obtain ⟨A1, B1, hA1, hB1, he1⟩ := rawTotal_decomp p s pre post g .hourly
    (24 * s.days_per_month) c det t1 rfl hc h1
  obtain ⟨A2, B2, hA2, hB2, he2⟩ := rawTotal_decomp p s pre post g .two_hourly
    (12 * s.days_per_month) c det t2 rfl hc h2
  obtain ⟨A3, B3, hA3, hB3, he3⟩ := rawTotal_decomp p s pre post g .four_hourly
    (6 * s.days_per_month) c det t3 rfl hc h3
  obtain ⟨A4, B4, hA4, hB4, he4⟩ := rawTotal_decomp p s pre post g .daily
    s.days_per_month c det t4 rfl hc h4
  obtain ⟨A5, B5, hA5, hB5, he5⟩ := rawTotal_decomp p s pre post g .weekly
    (Int.fdiv s.days_per_month 7) c det t5 rfl hc h5
  have hA12 : A1 = A2 := Except.ok.inj (hA1.symm.trans hA2)
  have hA13 : A1 = A3 := Except.ok.inj (hA1.symm.trans hA3)
  have hA14 : A1 = A4 := Except.ok.inj (hA1.symm.trans hA4)
  have hA15 : A1 = A5 := Except.ok.inj (hA1.symm.trans hA5)
  have hB12 : B1 = B2 := Except.ok.inj (hB1.symm.trans hB2)
  have hB13 : B1 = B3 := Except.ok.inj (hB1.symm.trans hB3)
  have hB14 : B1 = B4 := Except.ok.inj (hB1.symm.trans hB4)
  have hB15 : B1 = B5 := Except.ok.inj (hB1.symm.trans hB5)
  subst hA12 hA13 hA14 hA15 hB12 hB13 hB14 hB15
  have hdq : (1 : ℚ) ≤ (s.days_per_month : ℚ) := by exact_mod_cast hd
  have hdq0 : (0 : ℚ) < (s.days_per_month : ℚ) := lt_of_lt_of_le zero_lt_one hdq
  push_cast at he1 he2 he3 he4 he5
  have hw : Int.fdiv s.days_per_month 7 < s.days_per_month := by
    rw [Int.fdiv_eq_ediv _ (by norm_num : (0:Int) ≤ 7)]
    omega
  have hwq : ((Int.fdiv s.days_per_month 7 : Int) : ℚ) < (s.days_per_month : ℚ) := by
    exact_mod_cast hw
  refine ⟨?_, ?_, ?_, ?_⟩
  · have key : (0:ℚ) < 12 * (s.days_per_month : ℚ) * c := by positivity
    linarith [he1, he2, key]
  · have key : (0:ℚ) < 6 * (s.days_per_month : ℚ) * c := by positivity
    linarith [he2, he3, key]
  · have key : (0:ℚ) < 5 * (s.days_per_month : ℚ) * c := by positivity
    linarith [he3, he4, key]
  · have key : (0:ℚ) <
        ((s.days_per_month : ℚ) - ((Int.fdiv s.days_per_month 7 : Int) : ℚ)) * c :=
      mul_pos (by linarith) hcpos
    linarith [he4, he5, key]

/-- Price, group and scenario instantiating the frequency chain. -/
def W8price : ModelPrice :=
  { id := "m", vendor := "v", name := "M", input_per_million := 1,
    output_per_million := 2, input_cached_per_million := none, updated_at := 0 }

/-- 20 prompts through one step costing 0.0002 dollars per call. -/
def W8group : IntentGroup :=
  { name := "g", intents_count := 10, variants_per_intent := 2,
    frequency := .daily,
    flow_steps := [{ name := "s", uses_model := "current",
                     input_tokens_strategy := .fixed, fixed_input_tokens := some 100,
                     expected_output_tokens := 50 }] }

/-- Carrier scenario for the frequency-chain witness. -/
def W8scenario : Scenario :=
  { id := "s", name := "S", models := ["m"], intent_groups := [],
    days_per_month := 30 }

/-- Witness for `C8_frequency_monotonic`: monthly totals 2.88 > 1.44 >
0.72 > 0.12 > 0.016 for the five frequencies. -/
theorem C8_frequency_monotonic_witness :
    ((72:ℚ)/25 > 36/25) ∧ ((36:ℚ)/25 > 18/25)
    ∧ ((18:ℚ)/25 > 3/25) ∧ ((3:ℚ)/25 > 2/125) := by
  have hc : calculate_intent_group_with_runs [("m", W8price)] W8group
      W8scenario.models W8scenario.price_overrides 1
      = .ok (1/250,
        { calls := 20, input_tokens := 0, output_tokens := 0,
          by_model := [("m", 1/250)], by_step := [("s", 1/250)], warnings := [] }) := by
    simp [calculate_intent_group_with_runs, W8group, W8price, W8scenario, stepsGo,
      stepFold, calculate_flow_step, calculate_input_tokens, orDefault,
      modelsForStep, effPrompts, stepModelCost, stepModelWarn,
      calculate_single_call, alookup, dictSet, dictAdd, stepDict, warnMsg]
    norm_num
  refine C8_frequency_monotonic [("m", W8price)] W8scenario [] [] W8group (1/250)
    { calls := 20, input_tokens := 0, output_tokens := 0,
      by_model := [("m", 1/250)], by_step := [("s", 1/250)], warnings := [] }
    (72/25) (36/25) (18/25) (3/25) (2/125)
    (by norm_num [W8scenario]) hc (by norm_num) ?_ ?_ ?_ ?_ ?_ <;>
    (simp [rawTotal, calculate_scenario_raw, groupsGo, groupFold,
      calculate_intent_group, get_runs_per_month, withFreq, W8scenario, W8group,
      W8price, calculate_intent_group_with_runs, stepsGo, stepFold,
      calculate_flow_step, calculate_input_tokens, orDefault, modelsForStep,
      effPrompts, stepModelCost, stepModelWarn, calculate_single_call, alookup,
      dictSet, dictAdd, stepDict, warnMsg];
     norm_num)

end LLMPricing
